import Mathlib

/-!
Verification of the Red-Black-Predictor repository.

The repository contains three JavaScript programs sharing one design:

* `src/unnamed/part_001` (`iv-redblack-advanced.cjs`), the "advanced"
  single-stream predictor, embedded below in namespace `Advanced`
  (its alphabet is `['RED','BLACK','GREEN']`);
* `src/unnamed/part_002` (`sportypredictor.cjs`), the five-slot round
  predictor, embedded below in namespace `Sporty`
  (its alphabet is `['R','B','G']`);
* `src/index.cjs` (`redblack_predictor_fixed.cjs`), embedded below in
  namespace `Fixed` (alphabet `['RED','BLACK','GREEN']`).

All three share the same three-letter outcome alphabet, modelled by the
single inductive `Outcome` whose constructors `R`, `B`, `G` stand for
RED/R, BLACK/B, GREEN/G respectively.  JavaScript numbers are modelled
by `ℚ` (exact arithmetic; a sum that is exactly 1 is in particular
within the 1e-6 tolerance the specification allows).  JavaScript
dictionaries keyed by the alphabet are modelled as total functions
`Outcome → ℚ`; `Object.values(..).reduce((a,b)=>a+b,0)` over such a
dictionary is `distSum` (the keys are always inserted in the source in
the order RED, BLACK, GREEN).  The idiom `x || 1` applied to a
non-negative number is modelled by `if x = 0 then 1 else x`.
-/

inductive Outcome : Type
  | R : Outcome
  | B : Outcome
  | G : Outcome
deriving DecidableEq, Repr

/-- The outcome alphabet, `['RED','BLACK','GREEN']` in part_001 and
index.cjs, `['R','B','G']` in part_002 (same order). -/
def OUTCOMES : List Outcome := [Outcome.R, Outcome.B, Outcome.G]

/-- Sum of the values of a dictionary keyed by the alphabet:
`Object.values(obj).reduce((a,b)=>a+b,0)`. -/
def distSum (d : Outcome → ℚ) : ℚ := d Outcome.R + d Outcome.B + d Outcome.G

/-- The uniform distribution `1 / OUTCOMES.length` used as fallback. -/
def uniformDist : Outcome → ℚ := fun _ => 1 / 3

/-- Decay-weighted count of the elements satisfying `f`: element `i` of
a list of length `n` contributes `decay ^ (n - 1 - i)` (its head is the
oldest element, with age `n - 1 = rest.length`).  This is the loop
`for i: if (pred) counts += Math.pow(DECAY, n - 1 - i)` shared by
`buildMarginal`/`buildModels` (there the per-index weights are also
precomputed by `recencyWeights`). -/
def decaySumBy (decay : ℚ) (f : α → Bool) : List α → ℚ
  | [] => 0
  | x :: rest => (if f x then decay ^ rest.length else 0) + decaySumBy decay f rest

/-- Decay-weighted count over consecutive pairs: the pair whose later
element sits at index `i` contributes `decay ^ (n - 1 - i)` (the weight
of the later element).  This is the transition-counting loop
`for i ≥ 1: counts[h[i-1]][h[i]] += Math.pow(DECAY, n - 1 - i)`. -/
def decayPairSumBy (decay : ℚ) (f : α → α → Bool) : List α → ℚ
  | a :: b :: rest => (if f a b then decay ^ rest.length else 0) + decayPairSumBy decay f (b :: rest)
  | _ => 0

/-- The list of consecutive pairs of a list (used to state which
transitions occur in a history). -/
def consecPairs : List α → List (α × α)
  | a :: b :: rest => (a, b) :: consecPairs (b :: rest)
  | _ => []

/-- Total decayed mass of a list: `∑ i, decay ^ (n - 1 - i)`. -/
def totalDecayMass (decay : ℚ) : List α → ℚ
  | [] => 0
  | _ :: rest => decay ^ rest.length + totalDecayMass decay rest

namespace Advanced

/-! Embedding of the prediction core of `src/unnamed/part_001`
(`iv-redblack-advanced.cjs`).  Histories are lists of `{ts, outcome}`
entries, most recent last. -/

def DECAY : ℚ := 985 / 1000
def MIX_MARKOV : ℚ := 35 / 100
def MIX_LOGREG : ℚ := 55 / 100
def MIX_MARG : ℚ := 1 / 10
def STREAK_WINDOW : ℕ := 3
def STREAK_BONUS : ℚ := 6 / 100

structure Entry where
  ts : ℤ
  outcome : Outcome
deriving DecidableEq, Repr

/-- `buildMarginal(history)`: decay-weighted outcome counts (buckets
start at `0.0`, there is no Dirichlet prior in this function),
normalized by `sum || 1`. -/
def buildMarginal (history : List Entry) : Outcome → ℚ :=
  let outs := history.map (·.outcome)
  let counts := fun o => decaySumBy DECAY (fun x => decide (x = o)) outs
  let s := counts Outcome.R + counts Outcome.B + counts Outcome.G
  let s2 := if s = 0 then 1 else s
  fun o => counts o / s2

/-- One row of `buildMarkov(history)`: decay-weighted transition counts
out of `prev` (buckets start at `0.0`); a row whose total is `0` falls
back to the uniform distribution `1 / OUTCOMES.length`. -/
def buildMarkov (history : List Entry) (prev : Outcome) : Outcome → ℚ :=
  let outs := history.map (·.outcome)
  let row := fun c =>
    decayPairSumBy DECAY (fun a b => decide (a = prev) && decide (b = c)) outs
  let s := row Outcome.R + row Outcome.B + row Outcome.G
  if s = 0 then fun _ => 1 / 3 else fun c => row c / s

/-- `softmax(arr)` with the transcendental `Math.exp` abstracted as a
parameter `expQ` (the proofs only use that `exp` is strictly positive).
`Math.max(...arr)` of a non-empty array is the fold of `max` started at
the head. -/
def softmax (expQ : ℚ → ℚ) (arr : List ℚ) : List ℚ :=
  let m := arr.foldl (fun a v => max a v) (arr.headD 0)
  let exps := arr.map fun v => expQ (v - m)
  let s := exps.foldl (fun a b => a + b) 0
  let s2 := if s = 0 then 1 else s
  exps.map fun e => e / s2

/-- `dotRowVec(row, vec)` (the source iterates over `row.length`; the
two vectors always have equal length in its calls). -/
def dotRowVec (row vec : List ℚ) : ℚ :=
  (row.zip vec).foldl (fun s p => s + p.1 * p.2) 0

/-- The trained softmax model `{W, b}`: one weight row and one bias per
outcome (the source indexes rows by `k` with `OUTCOMES[k]`). -/
structure SoftModel where
  W : Outcome → List ℚ
  b : Outcome → ℚ

/-- `predictSoftmaxModel(model, x)`: logits `W·x + b` for the three
outcomes in alphabet order, softmaxed, returned keyed by outcome. -/
def predictSoftmaxModel (expQ : ℚ → ℚ) (model : SoftModel) (x : List ℚ) : Outcome → ℚ :=
  let logits := [dotRowVec (model.W Outcome.R) x + model.b Outcome.R,
                 dotRowVec (model.W Outcome.B) x + model.b Outcome.B,
                 dotRowVec (model.W Outcome.G) x + model.b Outcome.G]
  let probs := softmax expQ logits
  fun o => match o with
    | Outcome.R => probs.getD 0 0
    | Outcome.B => probs.getD 1 0
    | Outcome.G => probs.getD 2 0

/-- `argmaxWithRandomTie(dist)`, with `Math.random()` modelled by the
argument `rnd ∈ [0,1)`.  `bestP` starts at `-Infinity` and is the
running maximum over the keys RED, BLACK, GREEN; since the key list is
non-empty this equals the fold started at the first key's value. -/
def argmaxWithRandomTie (dist : Outcome → ℚ) (rnd : ℚ) : Outcome :=
  let bestP := OUTCOMES.foldl (fun m k => if dist k > m then dist k else m) (dist Outcome.R)
  let tol : ℚ := 1 / 1000000000
  let candidates := OUTCOMES.filter fun k => decide (|dist k - bestP| ≤ tol)
  if candidates.length = 1 then candidates.headD Outcome.R
  else candidates.getD (Int.toNat ⌊rnd * (candidates.length : ℚ)⌋) Outcome.R

/-- `applyStreakBias(probs, historyList)` of part_001: if the last
`STREAK_WINDOW` outcomes are identical, shift
`min(STREAK_BONUS, probs[v] * 0.5)` away from the repeated outcome `v`
(floored at 0) and add `shift / Math.max(1, others.length)` to each
other outcome.  No renormalization. -/
def applyStreakBias (probs : Outcome → ℚ) (historyList : List Outcome) : Outcome → ℚ :=
  if historyList.length < STREAK_WINDOW then probs else
  match historyList.drop (historyList.length - STREAK_WINDOW) with
  | v :: rest =>
    if rest.all fun x => decide (x = v) then
      let shift := min STREAK_BONUS (probs v * (1 / 2))
      let others := OUTCOMES.filter fun o => decide (o ≠ v)
      let addEach := shift / ((max 1 others.length : ℕ) : ℚ)
      fun o => if o = v then max 0 (probs v - shift) else probs o + addEach
    else probs
  | [] => probs

/-- The logistic-regression term of the ensemble:
`model ? predictSoftmaxModel(model, feat) : uniform`.  The softmax
model's output distribution (a function of the feature vector built by
`buildFeatureFromHistory`, which uses `Math.sin`/`Math.cos`/`Date`) is
passed in already evaluated, as `logreg`; `none` is the null model. -/
def logregProbs (logreg : Option (Outcome → ℚ)) : Outcome → ℚ :=
  logreg.getD uniformDist

/-- The Markov term of `ensemblePredict`:
`(last && markov[last]) ? markov[last] : margl`. -/
def markovProbsOf (history : List Entry) : Outcome → ℚ :=
  match history.getLast? with
  | some e => buildMarkov history e.outcome
  | none => buildMarginal history

/-- The weighted combination inside `ensemblePredict`:
`MIX_LOGREG * logreg + MIX_MARKOV * markov + MIX_MARG * marginal`. -/
def combinedDist (history : List Entry) (logreg : Option (Outcome → ℚ)) : Outcome → ℚ :=
  fun o => MIX_LOGREG * logregProbs logreg o
         + MIX_MARKOV * markovProbsOf history o
         + MIX_MARG * buildMarginal history o

/-- `ensemblePredict(history, model)`: combine the three sources, apply
the streak bias, normalize by `total || 1`. -/
def ensemblePredict (history : List Entry) (logreg : Option (Outcome → ℚ)) : Outcome → ℚ :=
  let cl := applyStreakBias (combinedDist history logreg) (history.map (·.outcome))
  let total := distSum cl
  let total2 := if total = 0 then 1 else total
  fun o => cl o / total2

/-- `recordOutcome(outcome)` on a loaded history (the `!outcome` guard
is vacuous here because `outcome` is typed): skip when the new outcome
equals the last entry's outcome and that entry is less than 2000 ms
old, else append `{ts: Date.now(), outcome}`.  `Date.now()` is the
argument `now`. -/
def recordOutcome (now : ℤ) (outcome : Outcome) (history : List Entry) : List Entry :=
  match history.getLast? with
  | some lastEntry =>
      if lastEntry.outcome = outcome ∧ now - lastEntry.ts < 2000 then history
      else history ++ [⟨now, outcome⟩]
  | none => history ++ [⟨now, outcome⟩]

/-- Well-formedness of the abstracted classifier output: the null model
or a genuine softmax output (non-negative, summing to 1; by
`c1`'s classifier conjunct every `predictSoftmaxModel` output with a
positive `exp` satisfies this). -/
def logregOK : Option (Outcome → ℚ) → Prop
  | none => True
  | some f => (∀ o, 0 ≤ f o) ∧ distSum f = 1

/-- `N_WINDOW`: the feature window size, which also bounds the
walk-forward training-set size (`X` gets one sample per index in
`[N_WINDOW, trainHist.length)`). -/
def N_WINDOW : ℕ := 10

/-- `options.minTrain || Math.max(20, N_WINDOW + 5)` of part_001's
`walkForwardEvaluate` (JavaScript `||` treats a passed `0` like an
absent option). -/
def resolveMinTrain : Option ℕ → ℕ
  | none => max 20 (N_WINDOW + 5)
  | some m => if m = 0 then max 20 (N_WINDOW + 5) else m

/-- One iteration of part_001's `walkForwardEvaluate` loop at index
`i`: `trainHist = history.slice(0, i)` and `testSample = history[i]`;
the training set built from `trainHist` has
`trainHist.length - N_WINDOW` samples, and the step is skipped when
fewer than 10 (`if (X.length < 10) continue`); otherwise the softmax
model is retrained on `trainHist` and the ensemble pick drawn.
`trainSoftmax` uses `Math.random` (weight initialization, per-epoch
shuffling) and `Math.exp`, so the retrained classifier's output
distribution is abstracted as `trainer i trainHist` — a function of
the training prefix and of the step's position in the sequential
random stream (the draws consumed before step `i` are a function of
`i` alone) — and the tie-break draw of `argmaxWithRandomTie` at step
`i` is `rndAt i`. -/
def wfStep (trainer : ℕ → List Entry → Option (Outcome → ℚ)) (rndAt : ℕ → ℚ)
    (history : List Entry) (i : ℕ) : Option (Outcome × Entry) :=
  match history.get? i with
  | none => none
  | some testSample =>
      let trainHist := history.take i
      if trainHist.length - N_WINDOW < 10 then none
      else
        let model := trainer i trainHist
        let dist := ensemblePredict trainHist model
        let pick := argmaxWithRandomTie dist (rndAt i)
        some (pick, testSample)

/-- The accumulators returned by part_001's `walkForwardEvaluate`
(`perOutcome o` is that outcome's `{total, correct}` pair; the early
return for a history not longer than `minTrain` is all zeros). -/
structure WFOut where
  tested : ℕ
  correct : ℕ
  accuracy : ℚ
  perOutcome : Outcome → ℕ × ℕ

/-- part_001's `walkForwardEvaluate(history, options)`: for each `i`
from `minTrain` to `history.length - 1`, run the loop body `wfStep`
and score the non-skipped picks against `history[i].outcome`. -/
def walkForwardEvaluate (trainer : ℕ → List Entry → Option (Outcome → ℚ)) (rndAt : ℕ → ℚ)
    (history : List Entry) (minTrainOpt : Option ℕ) : WFOut :=
  let minTrain := resolveMinTrain minTrainOpt
  if history.length ≤ minTrain then ⟨0, 0, 0, fun _ => (0, 0)⟩
  else
    let steps := ((List.range history.length).drop minTrain).filterMap
      (wfStep trainer rndAt history)
    let tested := steps.length
    let correct := (steps.filter fun st => decide (st.1 = st.2.outcome)).length
    { tested := tested
      correct := correct
      accuracy := if tested = 0 then 0 else (correct : ℚ) / tested
      perOutcome := fun o =>
        ((steps.filter fun st => decide (st.2.outcome = o)).length,
         (steps.filter fun st => decide (st.2.outcome = o ∧ st.1 = st.2.outcome)).length) }

end Advanced

namespace Fixed

/-! Embedding of the streak/normalization helpers of `src/index.cjs`
(`redblack_predictor_fixed.cjs`). -/

def STREAK_WINDOW : ℕ := 3
def STREAK_BONUS : ℚ := 8 / 100

/-- `normalizeDict(obj)`: divide every value by `sum || 1`. -/
def normalizeDict (d : Outcome → ℚ) : Outcome → ℚ :=
  let s := distSum d
  let s2 := if s = 0 then 1 else s
  fun o => d o / s2

/-- `applyStreakBias(probs, history)` of index.cjs: same shift as
part_001 (with `STREAK_BONUS = 0.08` and `addEach = shift /
others.length`), followed by `normalizeDict`. -/
def applyStreakBias (probs : Outcome → ℚ) (history : List Outcome) : Outcome → ℚ :=
  if history.length < STREAK_WINDOW then probs else
  match history.drop (history.length - STREAK_WINDOW) with
  | v :: rest =>
    if rest.all fun x => decide (x = v) then
      let shift := min STREAK_BONUS (probs v * (1 / 2))
      let others := OUTCOMES.filter fun o => decide (o ≠ v)
      let addEach := shift / (others.length : ℚ)
      normalizeDict (fun o => if o = v then max 0 (probs v - shift) else probs o + addEach)
    else probs
  | [] => probs

end Fixed

namespace Sporty

/-! Embedding of `src/unnamed/part_002` (`sportypredictor.cjs`):
five-slot rounds over the alphabet `['R','B','G']`. -/

def GAMES_PER_ROUND : ℕ := 5
def ALPHA : ℚ := 1 / 2
def DECAY : ℚ := 97 / 100
def MIX_GLOBAL : ℚ := 1 / 4
def W_SLOT : ℚ := 1 / 2
def W_MARKOV : ℚ := 35 / 100
def W_PATTERN : ℚ := 12 / 100
def W_STREAK : ℚ := 3 / 100
def STREAK_WINDOW : ℕ := 3
def STREAK_BONUS : ℚ := 6 / 100

/-- A stored round: `{ts, games}` with `games` an array of
`GAMES_PER_ROUND` outcomes. -/
structure Round where
  ts : ℤ
  games : Fin 5 → Outcome

instance : DecidableEq Round := fun a b =>
  decidable_of_iff (a.ts = b.ts ∧ a.games = b.games) (by cases a; cases b; simp)

/-- `normalize(obj)`: divide every value by `sum || 1`. -/
def normalize (d : Outcome → ℚ) : Outcome → ℚ :=
  let s := distSum d
  let s2 := if s = 0 then 1 else s
  fun o => d o / s2

/-- `slotCounts[s][o]` of `buildModels`: `ALPHA` plus the decayed count
of rounds whose slot `s` shows `o` (round `i` of `n` weighs
`DECAY ^ (n-1-i)`, the `recencyWeights`). -/
def slotCount (history : List Round) (s : Fin 5) (o : Outcome) : ℚ :=
  ALPHA + decaySumBy DECAY (fun r => decide (r.games s = o)) history

/-- `globalCounts[o]` of `buildModels`: `ALPHA` plus the decayed count
of occurrences of `o` pooled over all five slots. -/
def globalCount (history : List Round) (o : Outcome) : ℚ :=
  ALPHA + ((List.finRange GAMES_PER_ROUND).map fun s =>
    decaySumBy DECAY (fun r => decide (r.games s = o)) history).sum

/-- `markovCounts[s][p][c]` of `buildModels`: `ALPHA` plus the decayed
count of consecutive round pairs whose slot `s` moves from `p` to `c`
(weighted by the later round's weight). -/
def markovCount (history : List Round) (s : Fin 5) (p c : Outcome) : ℚ :=
  ALPHA + decayPairSumBy DECAY
    (fun a b => decide (a.games s = p) && decide (b.games s = c)) history

/-- `patternCounts[key][s][o]` of `buildModels` for a key that occurs:
`ALPHA` plus the decayed count of rounds following a round whose full
vector equals `key` and whose slot `s` shows `o`. -/
def patternCount (history : List Round) (k : Fin 5 → Outcome) (s : Fin 5) (o : Outcome) : ℚ :=
  ALPHA + decayPairSumBy DECAY
    (fun a b => decide (a.games = k) && decide (b.games s = o)) history

/-- Whether a previous-round key is present in `patternCounts` (the key
is created exactly when some round is preceded by a round whose vector
is `k`). -/
def patternSeen (history : List Round) (k : Fin 5 → Outcome) : Bool :=
  (consecPairs history).any fun ab => decide (ab.1.games = k)

/-- The posteriors produced by `buildModels(history)`. -/
structure Models where
  slotPosteriors : Fin 5 → Outcome → ℚ
  globalPosterior : Outcome → ℚ
  markovProbs : Fin 5 → Outcome → Outcome → ℚ
  patternProbs : (Fin 5 → Outcome) → Option (Fin 5 → Outcome → ℚ)

/-- `buildModels(history)`: normalize every count table; a pattern key
that never occurred is absent (`none`). -/
def buildModels (history : List Round) : Models :=
  { slotPosteriors := fun s => normalize (slotCount history s)
  , globalPosterior := normalize (globalCount history)
  , markovProbs := fun s p => normalize (markovCount history s p)
  , patternProbs := fun k =>
      if patternSeen history k then some (fun s => normalize (patternCount history k s))
      else none }

/-- Ensemble weights `{slot, markov, pattern, streak}` (the `pattern`
field is spelled `wpattern` here). -/
structure Weights where
  slot : ℚ
  markov : ℚ
  wpattern : ℚ
  streak : ℚ
deriving DecidableEq, Repr

/-- `weights?.x ?? W_X`: the override or the module-level defaults. -/
def resolveWeights : Option Weights → Weights
  | some w => w
  | none => ⟨W_SLOT, W_MARKOV, W_PATTERN, W_STREAK⟩

/-- `ns`: the weights divided by `sumW || 1`. -/
def normWeights (w : Weights) : Weights :=
  let sumW := w.slot + w.markov + w.wpattern + w.streak
  let sumW2 := if sumW = 0 then 1 else sumW
  ⟨w.slot / sumW2, w.markov / sumW2, w.wpattern / sumW2, w.streak / sumW2⟩

/-- `applyStreakAdjustment(probs, history, slotIndex)`: if the last
`STREAK_WINDOW` rounds show the same outcome at this slot, add
`STREAK_BONUS / others.length` to each other outcome (capped at 1) and
renormalize by the exact sum (the repeated outcome itself is not
reduced before renormalization). -/
def applyStreakAdjustment (probs : Outcome → ℚ) (history : List Round) (s : Fin 5) : Outcome → ℚ :=
  if history.length < STREAK_WINDOW then probs else
  match (history.drop (history.length - STREAK_WINDOW)).map (fun r => r.games s) with
  | v :: rest =>
    if rest.all fun x => decide (x = v) then
      let others := OUTCOMES.filter fun o => decide (o ≠ v)
      if others.length = 0 then probs else
      let transferPerOther := STREAK_BONUS / (others.length : ℚ)
      let adj := fun o => if o = v then probs o else min 1 (probs o + transferPerOther)
      let sum := distSum adj
      fun o => adj o / sum
    else probs
  | [] => probs

/-- `slotWithGlobal` inside `predictEnsemble`:
`(1 - MIX_GLOBAL) * slotP + MIX_GLOBAL * globalPosterior`. -/
def slotWithGlobal (M : Models) (s : Fin 5) (o : Outcome) : ℚ :=
  (1 - MIX_GLOBAL) * M.slotPosteriors s o + MIX_GLOBAL * M.globalPosterior o

/-- `markovP` inside `predictEnsemble`: uniform when the history is
empty, else the Markov row of the previous round's slot outcome. -/
def markovPdist (history : List Round) (M : Models) (s : Fin 5) : Outcome → ℚ :=
  match history.getLast? with
  | some last => M.markovProbs s (last.games s)
  | none => fun _ => 1 / 3

/-- The weighted sum inside `predictEnsemble`:
`ns.slot * p_slot + ns.markov * p_markov + ns.pattern * p_pattern`,
where a missing pattern row falls back to `p_slot`. -/
def combinedSlot (history : List Round) (M : Models) (ns : Weights) (s : Fin 5) (o : Outcome) : ℚ :=
  let p_slot := slotWithGlobal M s o
  let p_markov := markovPdist history M s o
  let p_pat :=
    match history.getLast? with
    | some last =>
        match M.patternProbs last.games with
        | some pp => pp s o
        | none => p_slot
    | none => p_slot
  ns.slot * p_slot + ns.markov * p_markov + ns.wpattern * p_pat

/-- The argmax loop of `predictEnsemble`:
`best = OUTCOMES[0]; for o of OUTCOMES.slice(1): if (dist[o] > bestP)`.
Ties keep the earlier outcome in alphabet order. -/
def pickSlot (dist : Outcome → ℚ) : Outcome :=
  (OUTCOMES.drop 1).foldl (fun best o => if dist o > dist best then o else best) Outcome.R

/-- The value of `predictEnsemble`: per-slot blended distributions and
argmax picks. -/
structure Prediction where
  picks : Fin 5 → Outcome
  blendedSlots : Fin 5 → Outcome → ℚ

/-- `predictEnsemble(history, models, weights)`: normalize the override
or default weights, blend the three sources per slot, apply the streak
adjustment, normalize, and pick the argmax. -/
def predictEnsemble (history : List Round) (M : Models) (wopt : Option Weights) : Prediction :=
  let ns := normWeights (resolveWeights wopt)
  let blended := fun s =>
    normalize (applyStreakAdjustment (combinedSlot history M ns s) history s)
  { picks := fun s => pickSlot (blended s), blendedSlots := blended }

/-- The iteration of `walkForwardEvaluate`: at each step push the next
round onto `pre` (so `pre` is `history[0..i]`), rebuild the models,
predict, and record the picks together with the actual next round. -/
def wfSteps (wopt : Option Weights) : List Round → List Round → List ((Fin 5 → Outcome) × Round)
  | pre, cur :: next :: rest =>
      let pre2 := pre ++ [cur]
      let M := buildModels pre2
      let P := predictEnsemble pre2 M wopt
      (P.picks, next) :: wfSteps wopt pre2 (next :: rest)
  | _, _ => []

/-- The accumulators returned by `walkForwardEvaluate`. -/
structure WFResult where
  rounds : ℕ
  correctRounds : ℕ
  correctSlots : ℕ
  totalSlots : ℕ
  roundAccuracy : ℚ
  slotAccuracy : ℚ
deriving DecidableEq, Repr

/-- `walkForwardEvaluate(history, weightsOverride)`: for each `i` from
`0` to `n-2`, predict round `i+1` from `history[0..i]` and score the
picks against it (a history shorter than 2 yields the zero result, as
in the source's early return). -/
def walkForwardEvaluate (history : List Round) (wopt : Option Weights) : WFResult :=
  let steps := wfSteps wopt [] history
  let totalRounds := steps.length
  let correctRounds :=
    (steps.filter fun st => decide (∀ s : Fin 5, st.1 s = st.2.games s)).length
  let correctSlots :=
    (steps.map fun st => (List.finRange 5).countP fun s => decide (st.1 s = st.2.games s)).sum
  let totalSlots := totalRounds * GAMES_PER_ROUND
  { rounds := totalRounds
  , correctRounds := correctRounds
  , correctSlots := correctSlots
  , totalSlots := totalSlots
  , roundAccuracy := if totalRounds = 0 then 0 else (correctRounds : ℚ) / totalRounds
  , slotAccuracy := if totalSlots = 0 then 0 else (correctSlots : ℚ) / totalSlots }

/-- The whitespace class of the JavaScript `trim`/`\s` used by
`parseRoundInput` (restricted to the ASCII whitespace characters). -/
def isWs (c : Char) : Bool :=
  c = ' ' || c = '\t' || c = '\n' || c = '\r' || c = '\x0b' || c = '\x0c'

/-- `raw.replace(/,/g, ' ')`. -/
def replaceCommas (s : List Char) : List Char :=
  s.map fun c => if c = ',' then ' ' else c

/-- `.trim()`. -/
def trimWs (s : List Char) : List Char :=
  ((s.dropWhile isWs).reverse.dropWhile isWs).reverse

/-- Worker for `.split(/\s+/)` on a trimmed string: group maximal runs
of non-whitespace characters. -/
def splitWsAux (cur : List Char) (acc : List (List Char)) : List Char → List (List Char)
  | [] => (if cur.isEmpty then acc else cur.reverse :: acc).reverse
  | c :: rest =>
      if isWs c then
        if cur.isEmpty then splitWsAux [] acc rest
        else splitWsAux [] (cur.reverse :: acc) rest
      else splitWsAux (c :: cur) acc rest

/-- `.split(/\s+/)`: on the empty string JavaScript returns `[""]`. -/
def splitWs (s : List Char) : List (List Char) :=
  if s.isEmpty then [[]] else splitWsAux [] [] s

/-- `.toUpperCase()` of a token. -/
def toUpperTok (t : List Char) : List Char := t.map Char.toUpper

/-- The token alphabet `OUTCOMES = ['R','B','G']` as strings. -/
def OUTTOKENS : List (List Char) := [['R'], ['B'], ['G']]

/-- `parseRoundInput(raw)`: tokenize (commas become spaces, trim, split
on whitespace runs, uppercase) and throw unless there are exactly
`GAMES_PER_ROUND` tokens, all in the alphabet. -/
def parseRoundInput (raw : List Char) : Except String (List (List Char)) :=
  let tokens := (splitWs (trimWs (replaceCommas raw))).map toUpperTok
  if tokens.length ≠ GAMES_PER_ROUND then
    Except.error "Need exactly 5 outcomes (R/B/G)."
  else if ! tokens.all fun t => decide (t ∈ OUTTOKENS) then
    Except.error "Outcomes must be one of R,B,G"
  else Except.ok tokens

/-- A stored round as the CLI writes it: the parsed token array. -/
structure RawEntry where
  ts : ℤ
  games : List (List Char)
deriving DecidableEq, Repr

/-- The `add` command of `runCLI`: parse, and on success push
`{ts: Date.now(), games}`; the `throw` is caught by the surrounding
`try`, so a failing parse leaves the history untouched. -/
def addRound (history : List RawEntry) (now : ℤ) (raw : List Char) : List RawEntry :=
  match parseRoundInput raw with
  | Except.ok games => history ++ [⟨now, games⟩]
  | Except.error _ => history

/-- Well-formedness of an ensemble-weight configuration: the defaults,
or an override with non-negative weights whose non-streak part has
positive mass (the specification's `EnsembleWeights` are non-negative
reals normalized to sum to 1 at use time). -/
def wOK : Option Weights → Prop
  | none => True
  | some w => 0 ≤ w.slot ∧ 0 ≤ w.markov ∧ 0 ≤ w.wpattern ∧ 0 ≤ w.streak
      ∧ 0 < w.slot + w.markov + w.wpattern

end Sporty

/-! Concrete values used in counterexamples and witnesses. -/

/-- The synthetic tied distribution `{A:0.5, B:0.5, C:0}` of the
tie-break property (here `{R:0.5, B:0.5, G:0}`). -/
def synthDist : Outcome → ℚ := fun o =>
  match o with
  | Outcome.R => 1 / 2
  | Outcome.B => 1 / 2
  | Outcome.G => 0

/-- A map with a negative value at `R`. -/
def negProbs : Outcome → ℚ := fun o =>
  match o with
  | Outcome.R => -1
  | Outcome.B => 0
  | Outcome.G => 0

/-- A weight configuration putting all mass on the streak component. -/
def streakOnlyWeights : Sporty.Weights := ⟨0, 0, 0, 1⟩

/-- A round showing `R` at every slot. -/
def rAllR : Sporty.Round := ⟨0, fun _ => Outcome.R⟩

/-- A round showing `B` at every slot. -/
def rAllB : Sporty.Round := ⟨1, fun _ => Outcome.B⟩

/-- A round showing `G` at every slot. -/
def rAllG : Sporty.Round := ⟨2, fun _ => Outcome.G⟩

/-- A well-formed raw round input. -/
def rawGood : List Char := "r,b,r,b,g".toList

/-- A malformed raw round input (two tokens, one out of alphabet). -/
def rawBad : List Char := "R X".toList

/-! Helper lemmas about the decayed sums. -/

theorem decaySumBy_nonneg (decay : ℚ) (hd : 0 ≤ decay) (f : α → Bool) :
    ∀ xs : List α, 0 ≤ decaySumBy decay f xs
  | [] => le_refl 0
  | x :: rest => by
      have ih := decaySumBy_nonneg decay hd f rest
      have hp : (0:ℚ) ≤ decay ^ rest.length := pow_nonneg hd _
      by_cases h : f x <;> simp [decaySumBy, h] <;> linarith

theorem decayPairSumBy_nonneg (decay : ℚ) (hd : 0 ≤ decay) (f : α → α → Bool) :
    ∀ xs : List α, 0 ≤ decayPairSumBy decay f xs
  | [] => by simp [decayPairSumBy]
  | [_] => by simp [decayPairSumBy]
  | a :: b :: rest => by
      have ih := decayPairSumBy_nonneg decay hd f (b :: rest)
      have hp : (0:ℚ) ≤ decay ^ rest.length := pow_nonneg hd _
      by_cases h : f a b <;> simp [decayPairSumBy, h] <;> linarith

theorem decayPairSumBy_eq_zero (decay : ℚ) (f : α → α → Bool) :
    ∀ xs : List α, (∀ ab ∈ consecPairs xs, f ab.1 ab.2 = false) →
      decayPairSumBy decay f xs = 0
  | [], _ => by simp [decayPairSumBy]
  | [_], _ => by simp [decayPairSumBy]
  | a :: b :: rest, h => by
      have h1 : f a b = false := h (a, b) (by simp [consecPairs])
      have h2 := decayPairSumBy_eq_zero decay f (b :: rest)
        (fun ab hab => h ab (by simp [consecPairs]; right; exact hab))
      simp [decayPairSumBy, h1, h2]

theorem totalDecayMass_nonneg (decay : ℚ) (hd : 0 ≤ decay) :
    ∀ xs : List α, 0 ≤ totalDecayMass decay xs
  | [] => le_refl 0
  | _ :: rest => by
      have ih := totalDecayMass_nonneg decay hd rest
      have hp : (0:ℚ) ≤ decay ^ rest.length := pow_nonneg hd _
      simp [totalDecayMass]; linarith

theorem totalDecayMass_pos (decay : ℚ) (hd : 0 < decay) (xs : List α) (hxs : xs ≠ []) :
    0 < totalDecayMass decay xs := by
  cases xs with
  | nil => exact absurd rfl hxs
  | cons x rest =>
      have h1 : (0:ℚ) < decay ^ rest.length := pow_pos hd _
      have h2 := totalDecayMass_nonneg decay (le_of_lt hd) rest
      simp [totalDecayMass]; linarith

theorem decaySum_split (decay : ℚ) (g : α → Outcome) :
    ∀ xs : List α,
      decaySumBy decay (fun x => decide (g x = Outcome.R)) xs
      + decaySumBy decay (fun x => decide (g x = Outcome.B)) xs
      + decaySumBy decay (fun x => decide (g x = Outcome.G)) xs
      = totalDecayMass decay xs
  | [] => by simp [decaySumBy, totalDecayMass]
  | x :: rest => by
      have ih := decaySum_split decay g rest
      cases h : g x <;> simp [decaySumBy, totalDecayMass, h] <;> linarith

/-! Helper lemmas about dictionary sums. -/

theorem distSum_div (d : Outcome → ℚ) (c : ℚ) :
    distSum (fun o => d o / c) = distSum d / c := by
  simp [distSum, add_div]

theorem le_distSum (d : Outcome → ℚ) (hnn : ∀ o, 0 ≤ d o) (o : Outcome) :
    d o ≤ distSum d := by
  have h1 := hnn Outcome.R
  have h2 := hnn Outcome.B
  have h3 := hnn Outcome.G
  cases o <;> simp [distSum] <;> linarith

theorem distSum_nonneg (d : Outcome → ℚ) (hnn : ∀ o, 0 ≤ d o) : 0 ≤ distSum d := by
  have h1 := hnn Outcome.R
  have h2 := hnn Outcome.B
  have h3 := hnn Outcome.G
  simp [distSum]; linarith

/-! Properties of the two `divide by sum || 1` normalizers. -/

theorem Sporty.normalize_eq (d : Outcome → ℚ) :
    Sporty.normalize d = fun o => d o / (if distSum d = 0 then 1 else distSum d) := rfl

theorem Sporty.normalize_sum_one (d : Outcome → ℚ) (h : distSum d ≠ 0) :
    distSum (Sporty.normalize d) = 1 := by
  rw [Sporty.normalize_eq, distSum_div, if_neg h, div_self h]

theorem Sporty.normalize_nonneg (d : Outcome → ℚ) (hnn : ∀ o, 0 ≤ d o) (o : Outcome) :
    0 ≤ Sporty.normalize d o := by
  rw [Sporty.normalize_eq]
  dsimp only
  apply div_nonneg (hnn o)
  split
  · norm_num
  · exact distSum_nonneg d hnn

theorem Sporty.normalize_le_one (d : Outcome → ℚ) (hnn : ∀ o, 0 ≤ d o) (o : Outcome) :
    Sporty.normalize d o ≤ 1 := by
  rw [Sporty.normalize_eq]
  dsimp only
  by_cases h : distSum d = 0
  · rw [if_pos h]
    have hle : d o ≤ 0 := h ▸ le_distSum d hnn o
    have hz : d o = 0 := le_antisymm hle (hnn o)
    simp [hz]
  · rw [if_neg h]
    have hs : 0 < distSum d := lt_of_le_of_ne (distSum_nonneg d hnn) (Ne.symm h)
    exact div_le_one_of_le₀ (le_distSum d hnn o) (le_of_lt hs)

theorem Fixed.normalizeDict_eq (d : Outcome → ℚ) :
    Fixed.normalizeDict d = fun o => d o / (if distSum d = 0 then 1 else distSum d) := rfl

theorem Fixed.normalizeDict_sum_one (d : Outcome → ℚ) (h : distSum d ≠ 0) :
    distSum (Fixed.normalizeDict d) = 1 := by
  rw [Fixed.normalizeDict_eq, distSum_div, if_neg h, div_self h]

/-! Positivity of the count tables of `Sporty.buildModels` (every
bucket starts at `ALPHA = 1/2 > 0`). -/

theorem Sporty.decay_nonneg : (0:ℚ) ≤ Sporty.DECAY := by norm_num [Sporty.DECAY]

theorem Sporty.slotCount_pos (history : List Sporty.Round) (s : Fin 5) (o : Outcome) :
    0 < Sporty.slotCount history s o := by
  have h := decaySumBy_nonneg Sporty.DECAY Sporty.decay_nonneg
    (fun r => decide (r.games s = o)) history
  rw [Sporty.slotCount]
  norm_num [Sporty.ALPHA]
  linarith

theorem Sporty.globalCount_pos (history : List Sporty.Round) (o : Outcome) :
    0 < Sporty.globalCount history o := by
  have h : 0 ≤ ((List.finRange Sporty.GAMES_PER_ROUND).map fun s =>
      decaySumBy Sporty.DECAY (fun r => decide (r.games s = o)) history).sum := by
    apply List.sum_nonneg
    intro x hx
    rcases List.mem_map.mp hx with ⟨s, _, rfl⟩
    exact decaySumBy_nonneg Sporty.DECAY Sporty.decay_nonneg _ history
  rw [Sporty.globalCount]
  norm_num [Sporty.ALPHA]
  linarith

theorem Sporty.markovCount_pos (history : List Sporty.Round) (s : Fin 5) (p c : Outcome) :
    0 < Sporty.markovCount history s p c := by
  have h := decayPairSumBy_nonneg Sporty.DECAY Sporty.decay_nonneg
    (fun a b => decide (a.games s = p) && decide (b.games s = c)) history
  rw [Sporty.markovCount]
  norm_num [Sporty.ALPHA]
  linarith

theorem Sporty.patternCount_pos (history : List Sporty.Round) (k : Fin 5 → Outcome)
    (s : Fin 5) (o : Outcome) : 0 < Sporty.patternCount history k s o := by
  have h := decayPairSumBy_nonneg Sporty.DECAY Sporty.decay_nonneg
    (fun a b => decide (a.games = k) && decide (b.games s = o)) history
  rw [Sporty.patternCount]
  norm_num [Sporty.ALPHA]
  linarith

/-! Lemmas about the three streak-adjustment functions. -/

theorem filter_ne_length (v : Outcome) :
    (OUTCOMES.filter fun o => decide (o ≠ v)).length = 2 := by
  cases v <;> rfl

/-- Mass conservation of part_001's `applyStreakBias` on maps with
non-negative values: the shift removed at the repeated outcome (the
`Math.max(0, ..)` floor never engages) is exactly re-added to the two
other outcomes. -/
theorem Advanced.applyStreakBias_sum (probs : Outcome → ℚ) (hl : List Outcome)
    (hnn : ∀ o, 0 ≤ probs o) :
    distSum (Advanced.applyStreakBias probs hl) = distSum probs := by
  rw [Advanced.applyStreakBias]
  split
  · rfl
  · rcases hdrop : hl.drop (hl.length - Advanced.STREAK_WINDOW) with _ | ⟨v, rest⟩
    · rfl
    · show distSum (if (rest.all fun x => decide (x = v)) = true then _ else probs) = _
      split
      · set sh := min Advanced.STREAK_BONUS (probs v * (1/2)) with hsh
        have hshift : sh ≤ probs v := by
          have h2 : probs v * (1/2) ≤ probs v := by have := hnn v; linarith
          exact le_trans (min_le_right _ _) h2
        have hmax : max 0 (probs v - sh) = probs v - sh := max_eq_right (by linarith)
        cases v <;>
          · simp [distSum, OUTCOMES, hmax]
            ring
      · rfl

/-- A `[v, v, v]` tail fires part_001's `applyStreakBias`, which then
evaluates to the shifted map. -/
theorem Advanced.applyStreakBias_fired (probs : Outcome → ℚ) (hl : List Outcome) (v : Outcome)
    (hdrop : hl.drop (hl.length - Advanced.STREAK_WINDOW) = [v, v, v]) :
    Advanced.applyStreakBias probs hl =
      fun o => if o = v then max 0 (probs v - min Advanced.STREAK_BONUS (probs v * (1/2)))
               else probs o + min Advanced.STREAK_BONUS (probs v * (1/2)) / 2 := by
  have hlen : ¬ hl.length < Advanced.STREAK_WINDOW := by
    intro hlt
    have h0 : hl.length - Advanced.STREAK_WINDOW = 0 := by omega
    rw [h0, List.drop_zero] at hdrop
    rw [hdrop] at hlt
    simp [Advanced.STREAK_WINDOW] at hlt
  rw [Advanced.applyStreakBias, if_neg hlen, hdrop]
  have hf2 : (List.filter (fun o => !decide (o = v)) OUTCOMES).length = 2 := by
    cases v <;> rfl
  funext o
  simp [hf2]

/-- A `[v, v, v]` tail fires index.cjs's `applyStreakBias`, which then
evaluates to the shifted map followed by `normalizeDict`. -/
theorem Fixed.applyStreakBias_fired_eq (probs : Outcome → ℚ) (hl : List Outcome) (v : Outcome)
    (hdrop : hl.drop (hl.length - Fixed.STREAK_WINDOW) = [v, v, v]) :
    Fixed.applyStreakBias probs hl =
      Fixed.normalizeDict
        (fun o => if o = v then max 0 (probs v - min Fixed.STREAK_BONUS (probs v * (1/2)))
                  else probs o + min Fixed.STREAK_BONUS (probs v * (1/2)) / 2) := by
  have hlen : ¬ hl.length < Fixed.STREAK_WINDOW := by
    intro hlt
    have h0 : hl.length - Fixed.STREAK_WINDOW = 0 := by omega
    rw [h0, List.drop_zero] at hdrop
    rw [hdrop] at hlt
    simp [Fixed.STREAK_WINDOW] at hlt
  rw [Fixed.applyStreakBias, if_neg hlen, hdrop]
  have hf2 : (List.filter (fun o => !decide (o = v)) OUTCOMES).length = 2 := by
    cases v <;> rfl
  simp [hf2]

/-- A `[v, v, v]` tail at slot `s` fires part_002's
`applyStreakAdjustment`, which then evaluates to the capped-bonus map
renormalized by its exact sum. -/
theorem Sporty.applyStreakAdjustment_fired (probs : Outcome → ℚ) (h : List Sporty.Round)
    (s : Fin 5) (v : Outcome)
    (hmap : (h.drop (h.length - Sporty.STREAK_WINDOW)).map (fun r => r.games s) = [v, v, v]) :
    Sporty.applyStreakAdjustment probs h s =
      fun o => (if o = v then probs o else min 1 (probs o + Sporty.STREAK_BONUS / 2)) /
        distSum (fun o => if o = v then probs o else min 1 (probs o + Sporty.STREAK_BONUS / 2)) := by
  have hlen : ¬ h.length < Sporty.STREAK_WINDOW := by
    intro hlt
    have h3 : ((h.drop (h.length - Sporty.STREAK_WINDOW)).map (fun r => r.games s)).length = 3 := by
      rw [hmap]; rfl
    rw [List.length_map, List.length_drop] at h3
    simp [Sporty.STREAK_WINDOW] at hlt
    omega
  rw [Sporty.applyStreakAdjustment, if_neg hlen, hmap]
  have hf2 : (List.filter (fun o => !decide (o = v)) OUTCOMES).length = 2 := by
    cases v <;> rfl
  have hneq : ¬ ∀ a ∈ OUTCOMES, a = v := by
    cases v <;> simp [OUTCOMES]
  funext o
  simp [hf2, hneq]

/-- On a map with values in `[0, 1]` and positive sum, part_002's
`applyStreakAdjustment` either changes nothing or returns a map summing
exactly to 1 (the internal renormalization divides by a sum that can
only have grown). -/
theorem Sporty.applyStreakAdjustment_cases (probs : Outcome → ℚ) (h : List Sporty.Round)
    (s : Fin 5) (hle : ∀ o, probs o ≤ 1)
    (hpos : 0 < distSum probs) :
    Sporty.applyStreakAdjustment probs h s = probs
    ∨ distSum (Sporty.applyStreakAdjustment probs h s) = 1 := by
  rw [Sporty.applyStreakAdjustment]
  split
  · exact Or.inl rfl
  · rcases hdrop : h.drop (h.length - Sporty.STREAK_WINDOW) with _ | ⟨r0, rtl⟩
    · exact Or.inl rfl
    · dsimp only [List.map_cons]
      set v := r0.games s with hv
      set rest := rtl.map (fun r => r.games s) with hrest
      show (if (rest.all fun x => decide (x = v)) = true then _ else probs) = probs ∨ _
      split
      · have hf := filter_ne_length v
        rw [hf]
        norm_num
        right
        set t := Sporty.STREAK_BONUS / ((2:ℕ):ℚ) with ht
        have htn : 0 ≤ t := by rw [ht]; norm_num [Sporty.STREAK_BONUS]
        set adj := fun o => if o = v then probs o else min 1 (probs o + t) with hadj
        have hge : ∀ o, probs o ≤ adj o := by
          intro o
          rw [hadj]
          dsimp only
          split
          · exact le_refl _
          · exact le_min (hle o) (by linarith)
        have hS : 0 < distSum adj := by
          have h1 := hge Outcome.R
          have h2 := hge Outcome.B
          have h3 := hge Outcome.G
          simp only [distSum] at hpos ⊢
          linarith
        rw [distSum_div]
        exact div_self (ne_of_gt hS)
      · exact Or.inl rfl

/-! Lemmas about part_001's marginal, Markov and softmax tables. -/

theorem Advanced.decay_pos : (0:ℚ) < Advanced.DECAY := by norm_num [Advanced.DECAY]

theorem Advanced.buildMarginal_nonneg (history : List Advanced.Entry) (o : Outcome) :
    0 ≤ Advanced.buildMarginal history o := by
  rw [Advanced.buildMarginal]
  dsimp only
  apply div_nonneg
    (decaySumBy_nonneg Advanced.DECAY (le_of_lt Advanced.decay_pos) _ _)
  split
  · norm_num
  · have h1 := decaySumBy_nonneg Advanced.DECAY (le_of_lt Advanced.decay_pos)
      (fun x => decide (x = Outcome.R)) (history.map (·.outcome))
    have h2 := decaySumBy_nonneg Advanced.DECAY (le_of_lt Advanced.decay_pos)
      (fun x => decide (x = Outcome.B)) (history.map (·.outcome))
    have h3 := decaySumBy_nonneg Advanced.DECAY (le_of_lt Advanced.decay_pos)
      (fun x => decide (x = Outcome.G)) (history.map (·.outcome))
    linarith

theorem Advanced.buildMarginal_sum_one (history : List Advanced.Entry) (hne : history ≠ []) :
    distSum (Advanced.buildMarginal history) = 1 := by
  rw [Advanced.buildMarginal]
  dsimp only
  set outs := history.map (·.outcome) with houts
  have houtsne : outs ≠ [] := by
    cases history with
    | nil => exact absurd rfl hne
    | cons a tl => simp [houts]
  have hsplit := decaySum_split Advanced.DECAY (fun x : Outcome => x) outs
  have hpos : 0 < totalDecayMass Advanced.DECAY outs :=
    totalDecayMass_pos Advanced.DECAY Advanced.decay_pos outs houtsne
  rw [distSum_div]
  have hne0 : decaySumBy Advanced.DECAY (fun x => decide (x = Outcome.R)) outs
      + decaySumBy Advanced.DECAY (fun x => decide (x = Outcome.B)) outs
      + decaySumBy Advanced.DECAY (fun x => decide (x = Outcome.G)) outs ≠ 0 := by
    rw [hsplit]; exact ne_of_gt hpos
  rw [if_neg hne0]
  show (_ + _ + _) / _ = 1
  exact div_self hne0

theorem Advanced.buildMarginal_empty (o : Outcome) : Advanced.buildMarginal [] o = 0 := by
  rw [Advanced.buildMarginal]
  simp [decaySumBy]

theorem Advanced.buildMarkov_nonneg (history : List Advanced.Entry) (prev o : Outcome) :
    0 ≤ Advanced.buildMarkov history prev o := by
  rw [Advanced.buildMarkov]
  dsimp only
  split
  · norm_num
  · apply div_nonneg
      (decayPairSumBy_nonneg Advanced.DECAY (le_of_lt Advanced.decay_pos) _ _)
    have h1 := decayPairSumBy_nonneg Advanced.DECAY (le_of_lt Advanced.decay_pos)
      (fun a b => decide (a = prev) && decide (b = Outcome.R)) (history.map (·.outcome))
    have h2 := decayPairSumBy_nonneg Advanced.DECAY (le_of_lt Advanced.decay_pos)
      (fun a b => decide (a = prev) && decide (b = Outcome.B)) (history.map (·.outcome))
    have h3 := decayPairSumBy_nonneg Advanced.DECAY (le_of_lt Advanced.decay_pos)
      (fun a b => decide (a = prev) && decide (b = Outcome.G)) (history.map (·.outcome))
    linarith

theorem Advanced.buildMarkov_sum_one (history : List Advanced.Entry) (prev : Outcome) :
    distSum (Advanced.buildMarkov history prev) = 1 := by
  rw [Advanced.buildMarkov]
  dsimp only
  split
  · simp [distSum]; norm_num
  · rename_i hs
    rw [distSum_div]
    exact div_self hs

theorem Advanced.predictSoftmaxModel_props (expQ : ℚ → ℚ) (hexp : ∀ t, 0 < expQ t)
    (model : Advanced.SoftModel) (x : List ℚ) :
    distSum (Advanced.predictSoftmaxModel expQ model x) = 1
    ∧ ∀ o, 0 ≤ Advanced.predictSoftmaxModel expQ model x o := by
  rw [Advanced.predictSoftmaxModel, Advanced.softmax]
  dsimp only [List.foldl, List.map, List.getD, List.get?, List.headD, Option.getD]
  set l1 := Advanced.dotRowVec (model.W Outcome.R) x + model.b Outcome.R
  set l2 := Advanced.dotRowVec (model.W Outcome.B) x + model.b Outcome.B
  set l3 := Advanced.dotRowVec (model.W Outcome.G) x + model.b Outcome.G
  set m := max (max (max l1 l1) l2) l3 with hm
  have he1 := hexp (l1 - m)
  have he2 := hexp (l2 - m)
  have he3 := hexp (l3 - m)
  have hsum : 0 + expQ (l1 - m) + expQ (l2 - m) + expQ (l3 - m) ≠ 0 := by positivity
  rw [if_neg hsum]
  constructor
  · simp only [distSum]
    field_simp
  · intro o
    cases o <;>
      · dsimp only
        positivity

/-- Bundled facts about the normalization of an everywhere-positive
count table: the posterior sums to 1 and its values lie in `[0, 1]`. -/
theorem Sporty.normalize_props (d : Outcome → ℚ) (hpos : ∀ o, 0 < d o) :
    distSum (Sporty.normalize d) = 1
    ∧ (∀ o, 0 ≤ Sporty.normalize d o) ∧ (∀ o, Sporty.normalize d o ≤ 1) := by
  have hnn : ∀ o, 0 ≤ d o := fun o => le_of_lt (hpos o)
  have hsum : 0 < distSum d := by
    have h1 := hpos Outcome.R
    have h2 := hpos Outcome.B
    have h3 := hpos Outcome.G
    simp [distSum]; linarith
  exact ⟨Sporty.normalize_sum_one d (ne_of_gt hsum),
         Sporty.normalize_nonneg d hnn, Sporty.normalize_le_one d hnn⟩

/-- The ensemble output of part_001 always sums to exactly 1: the
weighted blend has positive total mass (0.55 on an empty history, 1
otherwise), the streak bias conserves it, and the final division
normalizes. -/
theorem Advanced.ensemblePredict_sum_one (history : List Advanced.Entry)
    (logreg : Option (Outcome → ℚ)) (hok : Advanced.logregOK logreg) :
    distSum (Advanced.ensemblePredict history logreg) = 1 := by
  have hLnn : ∀ o, 0 ≤ Advanced.logregProbs logreg o := by
    cases logreg with
    | none => intro o; norm_num [Advanced.logregProbs, uniformDist]
    | some f => exact fun o => hok.1 o
  have hLsum : distSum (Advanced.logregProbs logreg) = 1 := by
    cases logreg with
    | none => norm_num [Advanced.logregProbs, uniformDist, distSum]
    | some f => exact hok.2
  have hMnn : ∀ o, 0 ≤ Advanced.markovProbsOf history o := by
    intro o
    rw [Advanced.markovProbsOf]
    cases hl : history.getLast? with
    | some e => exact Advanced.buildMarkov_nonneg history e.outcome o
    | none => exact Advanced.buildMarginal_nonneg history o
  have hCnn : ∀ o, 0 ≤ Advanced.combinedDist history logreg o := by
    intro o
    rw [Advanced.combinedDist]
    have h1 := hLnn o
    have h2 := hMnn o
    have h3 := Advanced.buildMarginal_nonneg history o
    norm_num [Advanced.MIX_LOGREG, Advanced.MIX_MARKOV, Advanced.MIX_MARG]
    linarith
  have hCsum : distSum (Advanced.combinedDist history logreg)
      = Advanced.MIX_LOGREG * distSum (Advanced.logregProbs logreg)
      + Advanced.MIX_MARKOV * distSum (Advanced.markovProbsOf history)
      + Advanced.MIX_MARG * distSum (Advanced.buildMarginal history) := by
    simp only [distSum, Advanced.combinedDist]
    ring
  rw [Advanced.ensemblePredict]
  rw [distSum_div, Advanced.applyStreakBias_sum _ _ hCnn]
  by_cases hne : history = []
  · subst hne
    have hMarg0 : distSum (Advanced.buildMarginal []) = 0 := by
      simp [distSum, Advanced.buildMarginal_empty]
    have hM0 : distSum (Advanced.markovProbsOf []) = 0 := by
      rw [Advanced.markovProbsOf]
      simp only [List.getLast?]
      exact hMarg0
    rw [hCsum, hM0, hMarg0, hLsum]
    norm_num [Advanced.MIX_LOGREG, Advanced.MIX_MARKOV, Advanced.MIX_MARG]
  · have hMsum : distSum (Advanced.markovProbsOf history) = 1 := by
      rw [Advanced.markovProbsOf]
      cases hl : history.getLast? with
      | some e => exact Advanced.buildMarkov_sum_one history e.outcome
      | none => exact absurd (List.getLast?_eq_none_iff.mp hl) hne
    have hMargsum := Advanced.buildMarginal_sum_one history hne
    rw [hCsum, hMsum, hMargsum, hLsum]
    norm_num [Advanced.MIX_LOGREG, Advanced.MIX_MARKOV, Advanced.MIX_MARG]

/-! Properties of the posteriors of part_002 and of its blended output. -/

theorem Sporty.slotPosteriors_props (history : List Sporty.Round) (s : Fin 5) :
    distSum ((Sporty.buildModels history).slotPosteriors s) = 1
    ∧ (∀ o, 0 ≤ (Sporty.buildModels history).slotPosteriors s o)
    ∧ (∀ o, (Sporty.buildModels history).slotPosteriors s o ≤ 1) := by
  rw [Sporty.buildModels]
  exact Sporty.normalize_props _ (Sporty.slotCount_pos history s)

theorem Sporty.globalPosterior_props (history : List Sporty.Round) :
    distSum ((Sporty.buildModels history).globalPosterior) = 1
    ∧ (∀ o, 0 ≤ (Sporty.buildModels history).globalPosterior o)
    ∧ (∀ o, (Sporty.buildModels history).globalPosterior o ≤ 1) := by
  rw [Sporty.buildModels]
  exact Sporty.normalize_props _ (Sporty.globalCount_pos history)

theorem Sporty.markovProbs_props (history : List Sporty.Round) (s : Fin 5) (p : Outcome) :
    distSum ((Sporty.buildModels history).markovProbs s p) = 1
    ∧ (∀ o, 0 ≤ (Sporty.buildModels history).markovProbs s p o)
    ∧ (∀ o, (Sporty.buildModels history).markovProbs s p o ≤ 1) := by
  rw [Sporty.buildModels]
  exact Sporty.normalize_props _ (Sporty.markovCount_pos history s p)

theorem Sporty.patternProbs_props (history : List Sporty.Round) (k : Fin 5 → Outcome)
    (pp : Fin 5 → Outcome → ℚ)
    (hpp : (Sporty.buildModels history).patternProbs k = some pp) (s : Fin 5) :
    distSum (pp s) = 1 ∧ (∀ o, 0 ≤ pp s o) ∧ (∀ o, pp s o ≤ 1) := by
  rw [Sporty.buildModels] at hpp
  dsimp only at hpp
  split at hpp
  · injection hpp with h
    rw [← h]
    exact Sporty.normalize_props _ (Sporty.patternCount_pos history k s)
  · exact absurd hpp (by simp)

theorem Sporty.slotWithGlobal_props (history : List Sporty.Round) (s : Fin 5) :
    distSum (Sporty.slotWithGlobal (Sporty.buildModels history) s) = 1
    ∧ (∀ o, 0 ≤ Sporty.slotWithGlobal (Sporty.buildModels history) s o)
    ∧ (∀ o, Sporty.slotWithGlobal (Sporty.buildModels history) s o ≤ 1) := by
  obtain ⟨hs1, hs2, hs3⟩ := Sporty.slotPosteriors_props history s
  obtain ⟨hg1, hg2, hg3⟩ := Sporty.globalPosterior_props history
  refine ⟨?_, ?_, ?_⟩
  · have : distSum (Sporty.slotWithGlobal (Sporty.buildModels history) s)
        = (1 - Sporty.MIX_GLOBAL) * distSum ((Sporty.buildModels history).slotPosteriors s)
        + Sporty.MIX_GLOBAL * distSum ((Sporty.buildModels history).globalPosterior) := by
      simp only [distSum, Sporty.slotWithGlobal]
      ring
    rw [this, hs1, hg1]
    norm_num [Sporty.MIX_GLOBAL]
  · intro o
    have h1 := hs2 o
    have h2 := hg2 o
    rw [Sporty.slotWithGlobal]
    norm_num [Sporty.MIX_GLOBAL]
    linarith
  · intro o
    have h1 := hs3 o
    have h2 := hg3 o
    rw [Sporty.slotWithGlobal]
    norm_num [Sporty.MIX_GLOBAL]
    linarith

theorem Sporty.markovPdist_props (history : List Sporty.Round) (s : Fin 5) :
    distSum (Sporty.markovPdist history (Sporty.buildModels history) s) = 1
    ∧ (∀ o, 0 ≤ Sporty.markovPdist history (Sporty.buildModels history) s o)
    ∧ (∀ o, Sporty.markovPdist history (Sporty.buildModels history) s o ≤ 1) := by
  rw [Sporty.markovPdist]
  cases hl : history.getLast? with
  | some last => exact Sporty.markovProbs_props history s (last.games s)
  | none =>
      refine ⟨by norm_num [distSum], fun o => by norm_num, fun o => by norm_num⟩

theorem Sporty.combinedSlot_eq (history : List Sporty.Round) (M : Sporty.Models)
    (ns : Sporty.Weights) (s : Fin 5) :
    ∃ pp : Outcome → ℚ,
      (Sporty.combinedSlot history M ns s = fun o =>
        ns.slot * Sporty.slotWithGlobal M s o + ns.markov * Sporty.markovPdist history M s o
        + ns.wpattern * pp o)
      ∧ (pp = (fun o => Sporty.slotWithGlobal M s o)
         ∨ ∃ last pprow, history.getLast? = some last
             ∧ M.patternProbs last.games = some pprow ∧ pp = fun o => pprow s o) := by
  cases hl : history.getLast? with
  | none =>
      refine ⟨fun o => Sporty.slotWithGlobal M s o, ?_, Or.inl rfl⟩
      funext o
      rw [Sporty.combinedSlot, Sporty.markovPdist, hl]
  | some last =>
      cases hpp : M.patternProbs last.games with
      | none =>
          refine ⟨fun o => Sporty.slotWithGlobal M s o, ?_, Or.inl rfl⟩
          funext o
          rw [Sporty.combinedSlot, Sporty.markovPdist, hl]
          dsimp only
          rw [hpp]
      | some pprow =>
          refine ⟨fun o => pprow s o, ?_, Or.inr ⟨last, pprow, rfl, hpp, rfl⟩⟩
          funext o
          rw [Sporty.combinedSlot, Sporty.markovPdist, hl]
          dsimp only
          rw [hpp]

theorem Sporty.ns_props (wopt : Option Sporty.Weights) (hok : Sporty.wOK wopt) :
    0 ≤ (Sporty.normWeights (Sporty.resolveWeights wopt)).slot
    ∧ 0 ≤ (Sporty.normWeights (Sporty.resolveWeights wopt)).markov
    ∧ 0 ≤ (Sporty.normWeights (Sporty.resolveWeights wopt)).wpattern
    ∧ 0 < (Sporty.normWeights (Sporty.resolveWeights wopt)).slot
        + (Sporty.normWeights (Sporty.resolveWeights wopt)).markov
        + (Sporty.normWeights (Sporty.resolveWeights wopt)).wpattern
    ∧ (Sporty.normWeights (Sporty.resolveWeights wopt)).slot
        + (Sporty.normWeights (Sporty.resolveWeights wopt)).markov
        + (Sporty.normWeights (Sporty.resolveWeights wopt)).wpattern ≤ 1 := by
  cases wopt with
  | none =>
      norm_num [Sporty.normWeights, Sporty.resolveWeights, Sporty.W_SLOT, Sporty.W_MARKOV,
        Sporty.W_PATTERN, Sporty.W_STREAK]
  | some w =>
      obtain ⟨h1, h2, h3, h4, h5⟩ := hok
      rw [Sporty.resolveWeights, Sporty.normWeights]
      have hsw : 0 < w.slot + w.markov + w.wpattern + w.streak := by linarith
      have hne : ¬ (w.slot + w.markov + w.wpattern + w.streak = 0) := ne_of_gt hsw
      rw [if_neg hne]
      dsimp only
      refine ⟨div_nonneg h1 (le_of_lt hsw), div_nonneg h2 (le_of_lt hsw),
        div_nonneg h3 (le_of_lt hsw), ?_, ?_⟩
      · rw [div_add_div_same, div_add_div_same]
        exact div_pos h5 hsw
      · rw [div_add_div_same, div_add_div_same]
        exact div_le_one_of_le₀ (by linarith) (le_of_lt hsw)

theorem Sporty.blendedSlots_sum_one (history : List Sporty.Round)
    (wopt : Option Sporty.Weights) (s : Fin 5) (hok : Sporty.wOK wopt) :
    distSum ((Sporty.predictEnsemble history (Sporty.buildModels history) wopt).blendedSlots s)
      = 1 := by
  obtain ⟨hn1, hn2, hn3, hn4, hn5⟩ := Sporty.ns_props wopt hok
  set M := Sporty.buildModels history with hM
  set ns := Sporty.normWeights (Sporty.resolveWeights wopt) with hns
  obtain ⟨pp, hceq, hpps⟩ := Sporty.combinedSlot_eq history M ns s
  obtain ⟨hsg1, hsg2, hsg3⟩ := Sporty.slotWithGlobal_props history s
  obtain ⟨hmk1, hmk2, hmk3⟩ := Sporty.markovPdist_props history s
  have hpp1 : distSum pp = 1 ∧ (∀ o, 0 ≤ pp o) ∧ (∀ o, pp o ≤ 1) := by
    rcases hpps with heq | ⟨last, pprow, hl, hrow, heq⟩
    · rw [heq]
      exact ⟨hsg1, hsg2, hsg3⟩
    · obtain ⟨a, b, c⟩ := Sporty.patternProbs_props history last.games pprow hrow s
      rw [heq]
      exact ⟨a, b, c⟩
  obtain ⟨hpp2, hpp3, hpp4⟩ := hpp1
  have hcnn : ∀ o, 0 ≤ Sporty.combinedSlot history M ns s o := by
    intro o
    rw [hceq]
    have := hsg2 o
    have := hmk2 o
    have := hpp3 o
    dsimp only
    have t1 : 0 ≤ ns.slot * Sporty.slotWithGlobal M s o := mul_nonneg hn1 (hsg2 o)
    have t2 : 0 ≤ ns.markov * Sporty.markovPdist history M s o := mul_nonneg hn2 (hmk2 o)
    have t3 : 0 ≤ ns.wpattern * pp o := mul_nonneg hn3 (hpp3 o)
    linarith
  have hcle : ∀ o, Sporty.combinedSlot history M ns s o ≤ 1 := by
    intro o
    rw [hceq]
    dsimp only
    have t1 : ns.slot * Sporty.slotWithGlobal M s o ≤ ns.slot :=
      (mul_le_of_le_one_right hn1 (hsg3 o))
    have t2 : ns.markov * Sporty.markovPdist history M s o ≤ ns.markov :=
      (mul_le_of_le_one_right hn2 (hmk3 o))
    have t3 : ns.wpattern * pp o ≤ ns.wpattern :=
      (mul_le_of_le_one_right hn3 (hpp4 o))
    linarith
  have hcsum : distSum (Sporty.combinedSlot history M ns s)
      = ns.slot + ns.markov + ns.wpattern := by
    have hlin : distSum (Sporty.combinedSlot history M ns s)
        = ns.slot * distSum (Sporty.slotWithGlobal M s)
        + ns.markov * distSum (Sporty.markovPdist history M s)
        + ns.wpattern * distSum pp := by
      rw [hceq]
      simp only [distSum]
      ring
    rw [hlin, hsg1, hmk1, hpp2]
    ring
  have hcpos : 0 < distSum (Sporty.combinedSlot history M ns s) := by
    rw [hcsum]; exact hn4
  have hstreak := Sporty.applyStreakAdjustment_cases
    (Sporty.combinedSlot history M ns s) history s hcle hcpos
  rw [Sporty.predictEnsemble]
  dsimp only
  rcases hstreak with heq | hsum1
  · rw [heq]
    exact Sporty.normalize_sum_one _ (ne_of_gt hcpos)
  · exact Sporty.normalize_sum_one _ (by rw [hsum1]; norm_num)

/-! Claim theorems. -/

/-- C2: applied to an empty History, both ensemble predictors return,
for every slot, a normalized distribution equal to the uniform
distribution over the alphabet (`1/3` per outcome, exactly): every
sub-model degrades to its prior or fallback. -/
theorem c2_empty_history_uniform :
    (∀ o, Advanced.ensemblePredict [] none o = 1 / 3)
    ∧ ∀ s : Fin 5, ∀ o,
        (Sporty.predictEnsemble [] (Sporty.buildModels []) none).blendedSlots s o = 1 / 3 := by
  constructor
  · intro o
    cases o <;>
      norm_num [Advanced.ensemblePredict, Advanced.applyStreakBias, Advanced.combinedDist,
        Advanced.logregProbs, Advanced.markovProbsOf, Advanced.buildMarginal, decaySumBy,
        Advanced.STREAK_WINDOW, Advanced.MIX_LOGREG, Advanced.MIX_MARKOV, Advanced.MIX_MARG,
        uniformDist, distSum]
  · intro s o
    have hslot : ∀ o, (Sporty.buildModels []).slotPosteriors s o = 1/3 := by
      intro o
      cases o <;>
        norm_num [Sporty.buildModels, Sporty.normalize, Sporty.slotCount, decaySumBy,
          distSum, Sporty.ALPHA]
    have hglob : ∀ o, (Sporty.buildModels []).globalPosterior o = 1/3 := by
      intro o
      cases o <;>
        norm_num [Sporty.buildModels, Sporty.normalize, Sporty.globalCount, decaySumBy,
          distSum, Sporty.ALPHA]
    have hsg : ∀ o, Sporty.slotWithGlobal (Sporty.buildModels []) s o = 1/3 := by
      intro o
      rw [Sporty.slotWithGlobal, hslot, hglob]
      norm_num [Sporty.MIX_GLOBAL]
    have hcomb : ∀ o, Sporty.combinedSlot [] (Sporty.buildModels [])
        (Sporty.normWeights (Sporty.resolveWeights none)) s o = (97:ℚ)/300 := by
      intro o
      rw [Sporty.combinedSlot]
      simp only [List.getLast?]
      rw [Sporty.markovPdist]
      simp only [List.getLast?]
      rw [hsg]
      norm_num [Sporty.normWeights, Sporty.resolveWeights, Sporty.W_SLOT, Sporty.W_MARKOV,
        Sporty.W_PATTERN, Sporty.W_STREAK]
    rw [Sporty.predictEnsemble]
    dsimp only
    rw [Sporty.applyStreakAdjustment]
    norm_num [Sporty.STREAK_WINDOW]
    rw [Sporty.normalize]
    simp only [distSum, hcomb]
    norm_num

/-- C7 counterexample: part_001's decayed-frequency counter
(`buildMarginal`) applied to the empty History does not return a
probability distribution at all: its buckets start at `0`, not at the
Dirichlet prior `ALPHA`, so every outcome gets value `0` and the values
sum to `0`, not `1`. -/
theorem c7_empty_marginal_counterexample :
    Advanced.buildMarginal [] Outcome.R = 0
    ∧ Advanced.buildMarginal [] Outcome.R ≠ 1 / 3
    ∧ distSum (Advanced.buildMarginal []) = 0 := by
  refine ⟨Advanced.buildMarginal_empty Outcome.R, ?_, ?_⟩
  · rw [Advanced.buildMarginal_empty Outcome.R]
    norm_num
  · simp [distSum, Advanced.buildMarginal_empty]

/-- C7 amended: part_002's decayed counters do start every bucket at
`ALPHA` and on the empty History return the uniform distribution `1/3`
per outcome (slot and global posteriors); part_001's `buildMarginal`
instead starts buckets at `0` and returns the all-zero map on the empty
History (equal values, but not a distribution). -/
theorem c7_empty_counters_amended :
    (∀ s : Fin 5, ∀ o, (Sporty.buildModels []).slotPosteriors s o = 1 / 3)
    ∧ (∀ o, (Sporty.buildModels []).globalPosterior o = 1 / 3)
    ∧ (∀ o, Advanced.buildMarginal [] o = 0) := by
  refine ⟨?_, ?_, Advanced.buildMarginal_empty⟩
  · intro s o
    cases o <;>
      norm_num [Sporty.buildModels, Sporty.normalize, Sporty.slotCount, decaySumBy,
        distSum, Sporty.ALPHA]
  · intro o
    cases o <;>
      norm_num [Sporty.buildModels, Sporty.normalize, Sporty.globalCount, decaySumBy,
        distSum, Sporty.ALPHA]

/-- C9: `recordOutcome` drops the observation exactly when it equals
the last stored outcome and the last entry is less than 2000 ms old; in
every other case (empty history, different outcome, or a repeat at
least 2000 ms later) it appends `{ts: now, outcome}`. -/
theorem c9_record_outcome_dedup :
    ∀ (now : ℤ) (o : Outcome) (pre : List Advanced.Entry) (e : Advanced.Entry),
      (Advanced.recordOutcome now o [] = [⟨now, o⟩])
      ∧ ((e.outcome = o ∧ now - e.ts < 2000) →
          Advanced.recordOutcome now o (pre ++ [e]) = pre ++ [e])
      ∧ (¬(e.outcome = o ∧ now - e.ts < 2000) →
          Advanced.recordOutcome now o (pre ++ [e]) = (pre ++ [e]) ++ [⟨now, o⟩]) := by
  intro now o pre e
  refine ⟨rfl, ?_, ?_⟩
  · intro h
    rw [Advanced.recordOutcome, List.getLast?_concat]
    dsimp only
    rw [if_pos h]
  · intro h
    rw [Advanced.recordOutcome, List.getLast?_concat]
    dsimp only
    rw [if_neg h]

/-- C9 witness: a repeat 500 ms later is dropped; a repeat 2500 ms
later is appended. -/
theorem c9_record_outcome_witness :
    Advanced.recordOutcome 1000 Outcome.R [⟨500, Outcome.R⟩] = [⟨500, Outcome.R⟩]
    ∧ Advanced.recordOutcome 3000 Outcome.R [⟨500, Outcome.R⟩]
        = [⟨500, Outcome.R⟩, ⟨3000, Outcome.R⟩] := by
  constructor
  · exact (c9_record_outcome_dedup 1000 Outcome.R [] ⟨500, Outcome.R⟩).2.1
      ⟨rfl, by norm_num⟩
  · exact (c9_record_outcome_dedup 3000 Outcome.R [] ⟨500, Outcome.R⟩).2.2
      (by norm_num)

/-- C10 counterexample: part_001's `applyStreakBias` does not conserve
total mass for every input map: on `{RED: -1, BLACK: 0, GREEN: 0}`
after an `[R, R, R]` streak the `Math.max(0, ..)` floor engages and the
output sums to `-1/2` while the input sums to `-1`. -/
theorem c10_mass_counterexample :
    distSum (Advanced.applyStreakBias negProbs [Outcome.R, Outcome.R, Outcome.R])
      ≠ distSum negProbs := by
  rw [Advanced.applyStreakBias_fired negProbs [Outcome.R, Outcome.R, Outcome.R] Outcome.R rfl]
  have h1 : (Outcome.B = Outcome.R) = False := by simp
  have h2 : (Outcome.G = Outcome.R) = False := by simp
  simp only [distSum, h1, h2, if_false, if_pos rfl]
  norm_num [negProbs, Advanced.STREAK_BONUS]

/-- C10 amended: part_001's `applyStreakBias` conserves the total mass
of every input map with non-negative values (in particular of every
probability distribution): `min(STREAK_BONUS, p[v]/2)` is removed from
the repeated outcome (the zero floor cannot engage) and redistributed
exactly, with no renormalization, so a normalized input stays
normalized. -/
theorem c10_mass_conservation_amended (probs : Outcome → ℚ) (hl : List Outcome)
    (hnn : ∀ o, 0 ≤ probs o) :
    distSum (Advanced.applyStreakBias probs hl) = distSum probs :=
  Advanced.applyStreakBias_sum probs hl hnn

/-- C10 witness: conservation at the uniform distribution under an
`[R, R, R]` streak. -/
theorem c10_mass_conservation_witness :
    distSum (Advanced.applyStreakBias uniformDist [Outcome.R, Outcome.R, Outcome.R])
      = distSum uniformDist :=
  c10_mass_conservation_amended uniformDist [Outcome.R, Outcome.R, Outcome.R]
    (fun o => by norm_num [uniformDist])

/-- C6: a Markov row that accumulated zero observed mass — the previous
outcome was never followed by anything at that slot — yields the
uniform distribution over the alphabet: in part_002 every bucket still
holds only the prior `ALPHA`, and in part_001 the zero-total row takes
the explicit `1 / OUTCOMES.length` fallback. -/
theorem c6_markov_uniform_fallback :
    (∀ (h : List Sporty.Round) (s : Fin 5) (p : Outcome),
        (∀ ab ∈ consecPairs h, ab.1.games s ≠ p) →
        ∀ c, (Sporty.buildModels h).markovProbs s p c = 1 / 3)
    ∧ (∀ (h : List Advanced.Entry) (prev : Outcome),
        (∀ ab ∈ consecPairs (h.map (·.outcome)), ab.1 ≠ prev) →
        ∀ c, Advanced.buildMarkov h prev c = 1 / 3) := by
  constructor
  · intro h s p hno c
    have hz : ∀ c, Sporty.markovCount h s p c = Sporty.ALPHA := by
      intro c
      rw [Sporty.markovCount]
      rw [decayPairSumBy_eq_zero Sporty.DECAY _ h (fun ab hab => by simp [hno ab hab])]
      ring
    rw [Sporty.buildModels]
    dsimp only
    rw [Sporty.normalize_eq]
    dsimp only
    have hds : distSum (Sporty.markovCount h s p) = 3 * Sporty.ALPHA := by
      simp only [distSum, hz]
      ring
    rw [hz c, hds]
    norm_num [Sporty.ALPHA]
  · intro h prev hno c
    have hz : ∀ c, decayPairSumBy Advanced.DECAY
        (fun a b => decide (a = prev) && decide (b = c)) (h.map (·.outcome)) = 0 :=
      fun c => decayPairSumBy_eq_zero Advanced.DECAY _ _ (fun ab hab => by simp [hno ab hab])
    rw [Advanced.buildMarkov]
    dsimp only
    rw [hz Outcome.R, hz Outcome.B, hz Outcome.G]
    norm_num

/-- C6 witness: on the empty History (no transition ever observed) both
Markov models answer `1/3`. -/
theorem c6_markov_uniform_witness :
    (Sporty.buildModels []).markovProbs 0 Outcome.R Outcome.B = 1 / 3
    ∧ Advanced.buildMarkov [] Outcome.R Outcome.B = 1 / 3 := by
  constructor
  · exact c6_markov_uniform_fallback.1 [] 0 Outcome.R (by simp [consecPairs]) Outcome.B
  · exact c6_markov_uniform_fallback.2 [] Outcome.R (by simp [consecPairs]) Outcome.B

/-- C8: `parseRoundInput` either returns exactly `GAMES_PER_ROUND`
tokens, each a member of the outcome alphabet, or throws; a thrown
parse leaves the `add` command's History unchanged, so no out-of-
alphabet token is ever coerced into it. -/
theorem c8_parse_round_input :
    ∀ (raw : List Char) (now : ℤ) (history : List Sporty.RawEntry),
      (∀ tokens, Sporty.parseRoundInput raw = Except.ok tokens →
          tokens.length = Sporty.GAMES_PER_ROUND ∧ ∀ t ∈ tokens, t ∈ Sporty.OUTTOKENS)
      ∧ (∀ msg, Sporty.parseRoundInput raw = Except.error msg →
          Sporty.addRound history now raw = history) := by
  intro raw now history
  constructor
  · intro tokens hok
    rw [Sporty.parseRoundInput] at hok
    split at hok
    · exact absurd hok (by simp)
    · split at hok
      · exact absurd hok (by simp)
      · rename_i hlen hall
        injection hok with heq
        subst heq
        constructor
        · exact not_ne_iff.mp hlen
        · intro t ht
          have hall2 : ((Sporty.splitWs (Sporty.trimWs (Sporty.replaceCommas raw))).map
              Sporty.toUpperTok).all (fun t => decide (t ∈ Sporty.OUTTOKENS)) = true := by
            rcases Bool.eq_false_or_eq_true (((Sporty.splitWs (Sporty.trimWs
                (Sporty.replaceCommas raw))).map Sporty.toUpperTok).all
                fun t => decide (t ∈ Sporty.OUTTOKENS)) with htr | hf
            · exact htr
            · exact absurd (by rw [hf]; rfl) hall
          have := List.all_eq_true.mp hall2 t ht
          exact of_decide_eq_true this
  · intro msg herr
    rw [Sporty.addRound, herr]

/-- C8 witness: `r,b,r,b,g` parses to five alphabet tokens; `R X`
throws and the failed `add` leaves the empty History empty. -/
theorem c8_parse_round_witness :
    (Sporty.parseRoundInput rawGood = Except.ok [['R'], ['B'], ['R'], ['B'], ['G']]
      ∧ [['R'], ['B'], ['R'], ['B'], ['G']].length = Sporty.GAMES_PER_ROUND
      ∧ ∀ t ∈ [['R'], ['B'], ['R'], ['B'], ['G']], t ∈ Sporty.OUTTOKENS)
    ∧ Sporty.addRound [] 0 rawBad = [] := by
  have hok : Sporty.parseRoundInput rawGood
      = Except.ok [['R'], ['B'], ['R'], ['B'], ['G']] := by rfl
  have herr : Sporty.parseRoundInput rawBad
      = Except.error "Need exactly 5 outcomes (R/B/G)." := by rfl
  have h1 := (c8_parse_round_input rawGood 0 []).1 _ hok
  have h2 := (c8_parse_round_input rawBad 0 []).2 _ herr
  exact ⟨⟨hok, h1.1, h1.2⟩, h2⟩

/-- C1 counterexample: two returned distributions do not sum to 1.
part_001's decayed marginal on the empty History sums to 0 (off by 1,
far beyond the 1e-6 tolerance); and part_002's blended ensemble output
under the valid all-streak weight configuration `{0, 0, 0, 1}` on the
empty History is the all-zero map (the weighted blend is zero, no
streak fires, and `normalize` divides by `sum || 1 = 1`). -/
theorem c1_sum_counterexample :
    |distSum (Advanced.buildMarginal []) - 1| > 1 / 1000000
    ∧ distSum ((Sporty.predictEnsemble [] (Sporty.buildModels [])
        (some streakOnlyWeights)).blendedSlots 0) = 0 := by
  constructor
  · have h : distSum (Advanced.buildMarginal []) = 0 := by
      simp [distSum, Advanced.buildMarginal_empty]
    rw [h]
    norm_num
  · have hcomb : ∀ o, Sporty.combinedSlot [] (Sporty.buildModels [])
        (Sporty.normWeights (Sporty.resolveWeights (some streakOnlyWeights))) 0 o = 0 := by
      intro o
      rw [Sporty.combinedSlot]
      simp only [List.getLast?]
      rw [Sporty.markovPdist]
      simp only [List.getLast?]
      norm_num [Sporty.normWeights, Sporty.resolveWeights, streakOnlyWeights]
    rw [Sporty.predictEnsemble]
    dsimp only
    rw [Sporty.applyStreakAdjustment]
    norm_num [Sporty.STREAK_WINDOW]
    rw [Sporty.normalize_eq]
    have hds : distSum (Sporty.combinedSlot [] (Sporty.buildModels [])
        (Sporty.normWeights (Sporty.resolveWeights (some streakOnlyWeights))) 0) = 0 := by
      simp [distSum, hcomb]
    rw [distSum_div, hds]
    norm_num

/-- C1 amended: every distribution returned by the component operations
sums to exactly 1 — the decayed marginal of part_001 for every
non-empty History (on the empty History it is the all-zero map), every
Markov row of part_001, the softmax classifier output (for any strictly
positive exponential), part_001's ensemble output for the null model or
any genuine classifier distribution, index.cjs's `normalizeDict` on any
map of non-zero total, part_002's slot, global, slot-with-global-blend,
Markov and pattern posteriors, and part_002's streak-adjusted blended
ensemble output for every weight configuration that is the default or
non-negative with positive non-streak mass (with all weights on the
streak component the blend can be all-zero, as the counterexample
shows). -/
theorem c1_normalization_amended :
    (∀ h : List Advanced.Entry, h ≠ [] → distSum (Advanced.buildMarginal h) = 1)
    ∧ (∀ (h : List Advanced.Entry) (prev : Outcome), distSum (Advanced.buildMarkov h prev) = 1)
    ∧ (∀ expQ : ℚ → ℚ, (∀ t, 0 < expQ t) → ∀ (model : Advanced.SoftModel) (x : List ℚ),
        distSum (Advanced.predictSoftmaxModel expQ model x) = 1)
    ∧ (∀ (h : List Advanced.Entry) (logreg : Option (Outcome → ℚ)), Advanced.logregOK logreg →
        distSum (Advanced.ensemblePredict h logreg) = 1)
    ∧ (∀ d : Outcome → ℚ, distSum d ≠ 0 → distSum (Fixed.normalizeDict d) = 1)
    ∧ (∀ (h : List Sporty.Round) (s : Fin 5),
        distSum ((Sporty.buildModels h).slotPosteriors s) = 1)
    ∧ (∀ h : List Sporty.Round, distSum ((Sporty.buildModels h).globalPosterior) = 1)
    ∧ (∀ (h : List Sporty.Round) (s : Fin 5),
        distSum (Sporty.slotWithGlobal (Sporty.buildModels h) s) = 1)
    ∧ (∀ (h : List Sporty.Round) (s : Fin 5) (p : Outcome),
        distSum ((Sporty.buildModels h).markovProbs s p) = 1)
    ∧ (∀ (h : List Sporty.Round) (k : Fin 5 → Outcome) (pp : Fin 5 → Outcome → ℚ),
        (Sporty.buildModels h).patternProbs k = some pp → ∀ s : Fin 5, distSum (pp s) = 1)
    ∧ (∀ (h : List Sporty.Round) (wopt : Option Sporty.Weights) (s : Fin 5), Sporty.wOK wopt →
        distSum ((Sporty.predictEnsemble h (Sporty.buildModels h) wopt).blendedSlots s) = 1) := by
  refine ⟨Advanced.buildMarginal_sum_one, Advanced.buildMarkov_sum_one, ?_, ?_, ?_, ?_, ?_, ?_,
    ?_, ?_, ?_⟩
  · intro expQ hexp model x
    exact (Advanced.predictSoftmaxModel_props expQ hexp model x).1
  · intro h logreg hok
    exact Advanced.ensemblePredict_sum_one h logreg hok
  · exact Fixed.normalizeDict_sum_one
  · intro h s
    exact (Sporty.slotPosteriors_props h s).1
  · intro h
    exact (Sporty.globalPosterior_props h).1
  · intro h s
    exact (Sporty.slotWithGlobal_props h s).1
  · intro h s p
    exact (Sporty.markovProbs_props h s p).1
  · intro h k pp hpp s
    exact (Sporty.patternProbs_props h k pp hpp s).1
  · intro h wopt s hok
    exact Sporty.blendedSlots_sum_one h wopt s hok

/-- C1 witness: concrete instances of the hypothesis-bearing conjuncts
of the amended normalization theorem. -/
theorem c1_normalization_witness :
    distSum (Advanced.buildMarginal [⟨0, Outcome.R⟩]) = 1
    ∧ distSum (Advanced.predictSoftmaxModel (fun _ => 1) ⟨fun _ => [], fun _ => 0⟩ []) = 1
    ∧ distSum (Advanced.ensemblePredict [] none) = 1
    ∧ distSum (Fixed.normalizeDict uniformDist) = 1
    ∧ distSum ((Sporty.predictEnsemble [] (Sporty.buildModels []) none).blendedSlots 0) = 1 := by
  refine ⟨c1_normalization_amended.1 [⟨0, Outcome.R⟩] (by simp), ?_, ?_, ?_, ?_⟩
  · exact c1_normalization_amended.2.2.1 (fun _ => 1) (fun t => by norm_num) ⟨fun _ => [], fun _ => 0⟩ []
  · exact c1_normalization_amended.2.2.2.1 [] none trivial
  · exact c1_normalization_amended.2.2.2.2.1 uniformDist (by norm_num [distSum, uniformDist])
  · exact c1_normalization_amended.2.2.2.2.2.2.2.2.2.2 [] none 0 trivial

/-- The step `i` of the walk-forward loop exists exactly when the
history reaches past round `i + 1`, and its prediction is computed from
the prefix `pre ++ rest.take (i+1)` alone. -/
theorem Sporty.wfSteps_get (wopt : Option Sporty.Weights) :
    ∀ (rest pre : List Sporty.Round) (i : ℕ),
      ((Sporty.wfSteps wopt pre rest).get? i).map Prod.fst
      = if i + 2 ≤ rest.length then
          some ((Sporty.predictEnsemble (pre ++ rest.take (i+1))
            (Sporty.buildModels (pre ++ rest.take (i+1))) wopt).picks)
        else none
  | [], pre, i => by
      rw [if_neg (by simp)]
      rfl
  | [x], pre, i => by
      rw [if_neg (by simp)]
      rfl
  | cur :: next :: rs, pre, i => by
      cases i with
      | zero =>
          rw [if_pos (by simp)]
          rfl
      | succ j =>
          have ih := Sporty.wfSteps_get wopt (next :: rs) (pre ++ [cur]) j
          show ((Sporty.wfSteps wopt (pre ++ [cur]) (next :: rs)).get? j).map Prod.fst = _
          rw [ih]
          have harr : (pre ++ [cur]) ++ (next :: rs).take (j+1)
              = pre ++ (cur :: next :: rs).take (j+1+1) := by
            rw [List.take_succ_cons, List.append_assoc]
            rfl
          by_cases hle : j + 2 ≤ (next :: rs).length
          · rw [if_pos hle, if_pos (by simp [List.length_cons] at hle ⊢; omega), harr]
          · rw [if_neg hle, if_neg (by simp [List.length_cons] at hle ⊢; omega)]

/-- C3: the prediction that `walkForwardEvaluate` produces for a round
is a function of the strictly earlier history (and the random source)
alone: two histories agreeing on that prefix — in particular a history
and its truncation — yield the same prediction there, so no
information from later rounds leaks in.  For part_001, at every index
`i` at or beyond `minTrain` the loop step predicting round `i` trains
and predicts from `history.slice(0, i)` only (the stochastic softmax
retraining and the tie-break draw are the abstracted random source
`trainer`/`rndAt`, indexed by the step).  For part_002, the step `i`
prediction scored against round `i+1` is a function of
`History[0..i+1)` alone. -/
theorem c3_walk_forward_leakage_free :
    (∀ (trainer : ℕ → List Advanced.Entry → Option (Outcome → ℚ)) (rndAt : ℕ → ℚ)
        (minTrainOpt : Option ℕ) (h1 h2 : List Advanced.Entry) (i : ℕ),
        Advanced.resolveMinTrain minTrainOpt ≤ i →
        i < h1.length → i < h2.length → h1.take i = h2.take i →
        (Advanced.wfStep trainer rndAt h1 i).map Prod.fst
          = (Advanced.wfStep trainer rndAt h2 i).map Prod.fst)
    ∧ (∀ (wopt : Option Sporty.Weights) (h1 h2 : List Sporty.Round) (i : ℕ),
        i + 2 ≤ h1.length → i + 2 ≤ h2.length → h1.take (i+1) = h2.take (i+1) →
        ((Sporty.wfSteps wopt [] h1).get? i).map Prod.fst
          = ((Sporty.wfSteps wopt [] h2).get? i).map Prod.fst) := by
  constructor
  · intro trainer rndAt minTrainOpt h1 h2 i _hmin hl1 hl2 hpre
    rw [Advanced.wfStep, Advanced.wfStep]
    cases hg1 : h1.get? i with
    | none => exact absurd (List.get?_eq_none.mp hg1) (by omega)
    | some e1 =>
        cases hg2 : h2.get? i with
        | none => exact absurd (List.get?_eq_none.mp hg2) (by omega)
        | some e2 =>
            dsimp only
            rw [hpre]
            split
            · rfl
            · rfl
  · intro wopt h1 h2 i hl1 hl2 hpre
    rw [Sporty.wfSteps_get wopt h1 [] i, Sporty.wfSteps_get wopt h2 [] i,
      if_pos hl1, if_pos hl2, List.nil_append, List.nil_append, hpre]

/-- C3 witness: for part_001, the step-1 prediction (null-model
trainer, fixed draw, `minTrain = 1`) agrees between two histories that
share their first entry; for part_002, the prediction of step 0 over a
three-round history equals the one over its two-round truncation. -/
theorem c3_walk_forward_witness :
    (Advanced.wfStep (fun _ _ => none) (fun _ => 0)
        [⟨0, Outcome.R⟩, ⟨1, Outcome.B⟩] 1).map Prod.fst
      = (Advanced.wfStep (fun _ _ => none) (fun _ => 0)
        [⟨0, Outcome.R⟩, ⟨5, Outcome.G⟩] 1).map Prod.fst
    ∧ ((Sporty.wfSteps none [] [rAllR, rAllB, rAllG]).get? 0).map Prod.fst
      = ((Sporty.wfSteps none [] [rAllR, rAllB]).get? 0).map Prod.fst := by
  constructor
  · exact c3_walk_forward_leakage_free.1 (fun _ _ => none) (fun _ => 0) (some 1)
      [⟨0, Outcome.R⟩, ⟨1, Outcome.B⟩] [⟨0, Outcome.R⟩, ⟨5, Outcome.G⟩] 1
      (by norm_num [Advanced.resolveMinTrain]) (by norm_num) (by norm_num) rfl
  · exact c3_walk_forward_leakage_free.2 none [rAllR, rAllB, rAllG] [rAllR, rAllB] 0
      (by simp) (by simp) rfl

/-- C4: when the last `STREAK_WINDOW = 3` outcomes (for the slot) all
equal `v`, each streak adjustment gives `v` a post-adjustment
probability no larger than its pre-adjustment value, and moves at most
`STREAK_BONUS` of probability away from `v`.  This holds for part_001's
`applyStreakBias` (bonus 0.06), index.cjs's `applyStreakBias` (bonus
0.08, with renormalization), and part_002's `applyStreakAdjustment`
(bonus 0.06, bonus added to the others and renormalized), for every
input probability distribution (non-negative, summing to 1). -/
theorem c4_streak_bound :
    ∀ (probs : Outcome → ℚ) (v : Outcome),
      (∀ o, 0 ≤ probs o) → distSum probs = 1 →
      (∀ hl : List Outcome, hl.drop (hl.length - Advanced.STREAK_WINDOW) = [v, v, v] →
          Advanced.applyStreakBias probs hl v ≤ probs v
          ∧ probs v - Advanced.applyStreakBias probs hl v ≤ Advanced.STREAK_BONUS)
      ∧ (∀ hl : List Outcome, hl.drop (hl.length - Fixed.STREAK_WINDOW) = [v, v, v] →
          Fixed.applyStreakBias probs hl v ≤ probs v
          ∧ probs v - Fixed.applyStreakBias probs hl v ≤ Fixed.STREAK_BONUS)
      ∧ (∀ (h : List Sporty.Round) (s : Fin 5),
          (h.drop (h.length - Sporty.STREAK_WINDOW)).map (fun r => r.games s) = [v, v, v] →
          Sporty.applyStreakAdjustment probs h s v ≤ probs v
          ∧ probs v - Sporty.applyStreakAdjustment probs h s v ≤ Sporty.STREAK_BONUS) := by
  intro probs v hnn hs1
  have hpv := hnn v
  refine ⟨?_, ?_, ?_⟩
  · intro hl hdrop
    rw [Advanced.applyStreakBias_fired probs hl v hdrop]
    dsimp only
    rw [if_pos rfl]
    set sh := min Advanced.STREAK_BONUS (probs v * (1/2)) with hsh
    have h0 : 0 ≤ sh := le_min (by norm_num [Advanced.STREAK_BONUS]) (by linarith)
    have hb : sh ≤ Advanced.STREAK_BONUS := min_le_left _ _
    have h1 : sh ≤ probs v := le_trans (min_le_right _ _) (by linarith)
    rw [max_eq_right (by linarith)]
    constructor <;> linarith
  · intro hl hdrop
    rw [Fixed.applyStreakBias_fired_eq probs hl v hdrop]
    set sh := min Fixed.STREAK_BONUS (probs v * (1/2)) with hsh
    have h0 : 0 ≤ sh := le_min (by norm_num [Fixed.STREAK_BONUS]) (by linarith)
    have hb : sh ≤ Fixed.STREAK_BONUS := min_le_left _ _
    have h1 : sh ≤ probs v := le_trans (min_le_right _ _) (by linarith)
    have hmax : max 0 (probs v - sh) = probs v - sh := max_eq_right (by linarith)
    have hsum : distSum (fun o => if o = v then max 0 (probs v - sh)
        else probs o + sh / 2) = 1 := by
      rw [← hs1]
      cases v <;> (simp [distSum, hmax]; try ring)
    rw [Fixed.normalizeDict_eq]
    dsimp only
    rw [hsum]
    rw [if_neg one_ne_zero, div_one]
    rw [if_pos rfl, hmax]
    constructor <;> linarith
  · intro h s hmap
    rw [Sporty.applyStreakAdjustment_fired probs h s v hmap]
    dsimp only
    have hv_eq : (if v = v then probs v else min 1 (probs v + Sporty.STREAK_BONUS / 2))
        = probs v := if_pos rfl
    rw [hv_eq]
    set adj := fun o => if o = v then probs o else min 1 (probs o + Sporty.STREAK_BONUS / 2)
      with hadj
    have hbpos : (0:ℚ) ≤ Sporty.STREAK_BONUS / 2 := by norm_num [Sporty.STREAK_BONUS]
    have hle : ∀ o, probs o ≤ 1 := by
      intro o
      have := le_distSum probs hnn o
      linarith
    have hge : ∀ o, probs o ≤ adj o := by
      intro o
      rw [hadj]
      dsimp only
      split
      · exact le_refl _
      · exact le_min (hle o) (by linarith)
    have hub : ∀ o, o ≠ v → adj o ≤ probs o + Sporty.STREAK_BONUS / 2 := by
      intro o ho
      rw [hadj]
      dsimp only
      rw [if_neg ho]
      exact min_le_right _ _
    have hadjv : adj v = probs v := by
      rw [hadj]
      dsimp only
      rw [if_pos rfl]
    have hS1 : 1 ≤ distSum adj := by
      have g1 := hge Outcome.R
      have g2 := hge Outcome.B
      have g3 := hge Outcome.G
      simp only [distSum] at hs1 ⊢
      linarith
    have hSB : distSum adj ≤ 1 + Sporty.STREAK_BONUS := by
      clear hv_eq
      cases v <;>
        · simp only [distSum]
          rw [hadjv]
          have u1 := hub Outcome.R
          have u2 := hub Outcome.B
          have u3 := hub Outcome.G
          simp only [distSum] at hs1
          first
          | (have w1 := u2 (by simp); have w2 := u3 (by simp); linarith)
          | (have w1 := u1 (by simp); have w2 := u3 (by simp); linarith)
          | (have w1 := u1 (by simp); have w2 := u2 (by simp); linarith)
    have hSpos : 0 < distSum adj := by linarith
    have hdivle : probs v / distSum adj ≤ 1 :=
      div_le_one_of_le₀ (le_trans (hle v) hS1) (by linarith)
    constructor
    · exact div_le_self hpv hS1
    · have hid : probs v - probs v / distSum adj
          = (probs v / distSum adj) * (distSum adj - 1) := by
        field_simp
        ring
      have key : (probs v / distSum adj) * (distSum adj - 1) ≤ 1 * (distSum adj - 1) :=
        mul_le_mul_of_nonneg_right hdivle (by linarith)
      rw [hid]
      norm_num [Sporty.STREAK_BONUS] at hSB ⊢
      linarith

/-- C4 witness: the streak bound at the uniform distribution after
three all-`R` rounds (part_002) and after an `[R, R, R]` tail
(part_001). -/
theorem c4_streak_bound_witness :
    Sporty.applyStreakAdjustment uniformDist [rAllR, rAllR, rAllR] 0 Outcome.R
        ≤ uniformDist Outcome.R
    ∧ uniformDist Outcome.R
        - Sporty.applyStreakAdjustment uniformDist [rAllR, rAllR, rAllR] 0 Outcome.R
        ≤ Sporty.STREAK_BONUS
    ∧ Advanced.applyStreakBias uniformDist [Outcome.R, Outcome.R, Outcome.R] Outcome.R
        ≤ uniformDist Outcome.R := by
  have h := c4_streak_bound uniformDist Outcome.R (fun o => by norm_num [uniformDist])
    (by norm_num [distSum, uniformDist])
  have h3 := h.2.2 [rAllR, rAllR, rAllR] 0 rfl
  have h1 := h.1 [Outcome.R, Outcome.R, Outcome.R] rfl
  exact ⟨h3.1, h3.2, h1.1⟩

/-- C5 counterexample: on the synthetic tied distribution
`{R: 0.5, B: 0.5, G: 0}` the argmax of part_002's `predictEnsemble`
(the strict `>` loop over `OUTCOMES`) always returns the first maximal
outcome in alphabet order, `R` — the tie is broken deterministically,
never randomly, so repeated calls select `B` with probability 0, not
1/2. -/
theorem c5_tie_break_counterexample : Sporty.pickSlot synthDist = Outcome.R := by
  norm_num [Sporty.pickSlot, OUTCOMES, synthDist]

/-- C5 amended: part_001's `argmaxWithRandomTie` does break the tie on
`{R: 0.5, B: 0.5, G: 0}` uniformly at random: the candidate set is
`[R, B]` and the pick is `R` exactly when the uniform draw
`q ∈ [0, 1)` falls in `[0, 1/2)` and `B` exactly when it falls in
`[1/2, 1)` — each tied outcome receives exactly half of the draw
interval; part_002's `pickSlot`, by contrast, deterministically
returns the alphabet-first `R`. -/
theorem c5_tie_break_amended :
    ∀ q : ℚ, 0 ≤ q → q < 1 →
      ((Advanced.argmaxWithRandomTie synthDist q = Outcome.R ↔ q < 1/2)
       ∧ (Advanced.argmaxWithRandomTie synthDist q = Outcome.B ↔ 1/2 ≤ q))
      ∧ Sporty.pickSlot synthDist = Outcome.R := by
  have hR : ∀ q : ℚ, 0 ≤ q → q < 1/2 → Advanced.argmaxWithRandomTie synthDist q = Outcome.R := by
    intro q h0 hq
    rw [Advanced.argmaxWithRandomTie]
    have hbest : OUTCOMES.foldl (fun m k => if synthDist k > m then synthDist k else m)
        (synthDist Outcome.R) = 1/2 := by
      norm_num [OUTCOMES, synthDist]
    rw [hbest]
    have hcand : (OUTCOMES.filter fun k => decide (|synthDist k - 1/2| ≤ 1 / 1000000000))
        = [Outcome.R, Outcome.B] := by
      norm_num [OUTCOMES, synthDist, List.filter, abs_le]
    rw [hcand]
    have hfl : ⌊q * (([Outcome.R, Outcome.B].length : ℕ) : ℚ)⌋ = 0 := by
      rw [Int.floor_eq_zero_iff]
      constructor
      · simp
        linarith
      · simp
        linarith
    rw [hfl]
    rfl
  have hB : ∀ q : ℚ, 1/2 ≤ q → q < 1 → Advanced.argmaxWithRandomTie synthDist q = Outcome.B := by
    intro q hq h1
    rw [Advanced.argmaxWithRandomTie]
    have hbest : OUTCOMES.foldl (fun m k => if synthDist k > m then synthDist k else m)
        (synthDist Outcome.R) = 1/2 := by
      norm_num [OUTCOMES, synthDist]
    rw [hbest]
    have hcand : (OUTCOMES.filter fun k => decide (|synthDist k - 1/2| ≤ 1 / 1000000000))
        = [Outcome.R, Outcome.B] := by
      norm_num [OUTCOMES, synthDist, List.filter, abs_le]
    rw [hcand]
    have hfl : ⌊q * (([Outcome.R, Outcome.B].length : ℕ) : ℚ)⌋ = 1 := by
      rw [Int.floor_eq_iff]
      constructor
      · simp
        linarith
      · simp
        linarith
    rw [hfl]
    rfl
  intro q h0 h1
  refine ⟨⟨⟨fun heq => ?_, hR q h0⟩, ⟨fun heq => ?_, fun hge => hB q hge h1⟩⟩, ?_⟩
  · by_contra hC
    push_neg at hC
    have := hB q hC h1
    rw [this] at heq
    exact absurd heq (by simp)
  · by_contra hC
    push_neg at hC
    have := hR q h0 hC
    rw [this] at heq
    exact absurd heq (by simp)
  · norm_num [Sporty.pickSlot, OUTCOMES, synthDist]

/-- C5 witness: the draw `q = 3/4` lies in `[0, 1)` and selects the
tied outcome `B`. -/
theorem c5_tie_break_witness :
    Advanced.argmaxWithRandomTie synthDist (3/4) = Outcome.B :=
  ((c5_tie_break_amended (3/4) (by norm_num) (by norm_num)).1.2).mpr (by norm_num)
